import Mathlib

/-!
# Verification of the family-tree backend (`backend/app/routes_tree.py`)

This file gives a shallow embedding of the tree subsystem of the family-tree
backend: member documents, parent→child relation documents, the name-key
uniqueness guard, spouse linking, tree assembly (`GET /tree`), the move
endpoint, and the save / unsaved / recover version manager.

Conventions of the embedding:

* Firestore collections are association lists `List (String × α)` from document
  id to document data, in stream (insertion) order.  `docGet`, `docSet`,
  `docDelete` and `docCreate` model `get`, `set`, `delete` and the atomic
  `create` (which fails when the document already exists).
* Every endpoint is a function `DB → args → DB × Except HErr β`: the returned
  state reflects all writes performed before a raised exception, matching the
  non-transactional Python code.
* Python truthiness on optional string fields (`if sid:`) is modelled by
  `truthy`, which treats `none` and `""` as falsy.
* Firestore's auto-generated document ids are passed in as explicit arguments
  (`newId`), since the embedding is deterministic.
* Descriptive member fields that no endpoint of this subsystem reads
  (dob, emails, hobbies, created_by, …) are elided from `MemberDoc`; the
  fields that drive control flow (`first_name`, `last_name`, `name_key`,
  `spouse_id`, `space_id`) are kept.
* The recursion of the tree assembler is embedded with an explicit fuel
  parameter; `get_tree` instantiates it with `members.length + 1`, which
  dominates the depth of the Python recursion (the recursion path only ever
  collects distinct member ids).
-/

namespace FamilyTree

/-- A document of the `members` collection (the fields read by the tree
subsystem). -/
structure MemberDoc where
  first_name : String
  last_name : String
  name_key : String
  spouse_id : Option String
  space_id : String
  deriving Repr, DecidableEq

/-- A document of the `relations` collection.  `recover_tree` re-inserts
relations without a `space_id` field, so the field is optional. -/
structure RelationDoc where
  parent_id : Option String
  child_id : Option String
  space_id : Option String
  deriving Repr, DecidableEq

/-- A document of the `member_keys` guard collection.  `create_member` first
creates `{space_id, name_key}` and later overwrites with
`{member_id, space_id}`, so both payload fields are optional. -/
structure KeyDoc where
  member_id : Option String
  name_key : Option String
  space_id : String
  deriving Repr, DecidableEq

/-- A `{parent_id, child_id}` pair as stored inside a version snapshot. -/
structure RelPair where
  parent_id : Option String
  child_id : Option String
  deriving Repr, DecidableEq

/-- A document of the `tree_versions` collection. -/
structure VersionDoc where
  created_at : String
  relations : List RelPair
  version : Nat
  deriving Repr, DecidableEq

/-- The document store.  `tree_state_active` models the single
`tree_state/active_version` document: `none` when the document does not
exist, `some v` when it exists with `version_id` field `v` (itself optional,
as the Python code guards against a missing `version_id`). -/
structure DB where
  members : List (String × MemberDoc)
  relations : List (String × RelationDoc)
  member_keys : List (String × KeyDoc)
  tree_versions : List (String × VersionDoc)
  tree_state_active : Option (Option String)
  deriving Repr, DecidableEq

/-- HTTP-level errors raised by the endpoints.  `keyError` models the uncaught
Python `KeyError` (surfaced as a 500 by the framework). -/
inductive HErr where
  | http (status : Nat) (detail : String)
  | keyError (key : String)
  deriving Repr, DecidableEq

/-- `collection.document(id).get()` on an association list. -/
def docGet (c : List (String × α)) (id : String) : Option α :=
  match c.find? (fun d => d.1 == id) with
  | some d => some d.2
  | none => none

/-- `document(id).set(v)`: overwrite if present, else insert. -/
def docSet (c : List (String × α)) (id : String) (v : α) : List (String × α) :=
  match c.find? (fun d => d.1 == id) with
  | some _ => c.map (fun d => if d.1 == id then (id, v) else d)
  | none => c ++ [(id, v)]

/-- `document(id).delete()`. -/
def docDelete (c : List (String × α)) (id : String) : List (String × α) :=
  c.filter (fun d => d.1 != id)

/-- Atomic `document(id).create(v)`: `none` signals `AlreadyExists`. -/
def docCreate (c : List (String × α)) (id : String) (v : α) :
    Option (List (String × α)) :=
  match c.find? (fun d => d.1 == id) with
  | some _ => none
  | none => some (c ++ [(id, v)])

/-- Python truthiness of an optional string (`None` and `""` are falsy). -/
def truthy (o : Option String) : Option String :=
  match o with
  | some s => if s = "" then none else some s
  | none => none

/-- Python `str.lower` restricted to the ASCII range (member names are
validated to letters and hyphen, so this coincides with `str.lower`). -/
def pyLower (s : String) : String :=
  ⟨s.data.map (fun c =>
    if 65 ≤ c.toNat ∧ c.toNat ≤ 90 then Char.ofNat (c.toNat + 32) else c)⟩

/-- The ASCII whitespace stripped by Python `str.strip()`. -/
def pyIsSpace (c : Char) : Bool := c.toNat = 32 ∨ (9 ≤ c.toNat ∧ c.toNat ≤ 13)

/-- Python `str.strip()`. -/
def pyStrip (s : String) : String :=
  ⟨((s.data.dropWhile pyIsSpace).reverse.dropWhile pyIsSpace).reverse⟩

/-- `_name_key`: normalized `lower(strip(first)) ++ "|" ++ lower(strip(last))`. -/
def name_key (first_name last_name : String) : String :=
  pyLower (pyStrip first_name) ++ "|" ++ pyLower (pyStrip last_name)

/-- Update the `spouse_id` field of one member document
(`ref.update({"spouse_id": v})`). -/
def updateSpouse (c : List (String × MemberDoc)) (id : String)
    (v : Option String) : List (String × MemberDoc) :=
  c.map (fun d => if d.1 == id then (d.1, { d.2 with spouse_id := v }) else d)

/-- `POST /tree/members/{member_id}/spouse` (`set_spouse`).  `space` is the
caller's current space (`_get_user_space`). -/
def set_spouse (db : DB) (space member_id : String) (req_spouse_id : Option String) :
    DB × Except HErr Unit :=
  match docGet db.members member_id with
  | none => (db, .error (.http 404 "Member not found"))
  | some member_data =>
    if member_data.space_id ≠ space then
      (db, .error (.http 403 "Member not found in current family space"))
    else
      let current_spouse := truthy member_data.spouse_id
      -- clearing branch: `if spouse_id is None and current_spouse:`
      match req_spouse_id, current_spouse with
      | none, some cs =>
        let db₁ :=
          match docGet db.members cs with
          | some spouse_data =>
            if spouse_data.space_id = space then
              { db with members := updateSpouse db.members cs none }
            else db
          | none => db
        ({ db₁ with members := updateSpouse db₁.members member_id none }, .ok ())
      | _, _ =>
        -- linking branch: `if spouse_id:` (truthy)
        match truthy req_spouse_id with
        | some sid =>
          match docGet db.members sid with
          | none => (db, .error (.http 404 "Spouse not found"))
          | some spouse_data =>
            if spouse_data.space_id ≠ space then
              (db, .error (.http 403 "Spouse not found in current family space"))
            else
              let db₁ := { db with members := updateSpouse db.members sid member_id }
              ({ db₁ with
                  members := updateSpouse db₁.members member_id req_spouse_id },
                .ok ())
        | none =>
          ({ db with members := updateSpouse db.members member_id req_spouse_id },
            .ok ())

/-- The spouse-symmetry invariant of the spec, restricted to one space:
for all members A, B of the space, `A.spouse_id = B.id ↔ B.spouse_id = A.id`
(decidable over the member list). -/
def spouseSymmetric (db : DB) (space : String) : Bool :=
  (db.members.filter (fun d => d.2.space_id == space)).all fun a =>
    match a.2.spouse_id with
    | none => true
    | some b =>
      match docGet db.members b with
      | some bd => bd.spouse_id == some a.1
      | none => true

/-- `str(x)` on an optional id, as used for the snapshot sort key
(`str(None) = "None"`). -/
def pyStr (o : Option String) : String :=
  match o with
  | none => "None"
  | some s => s

/-- Strict lexicographic order on character lists by code point (the order
Python uses to compare `str` values). -/
def charListLtb : List Char → List Char → Bool
  | [], [] => false
  | [], _ :: _ => true
  | _ :: _, [] => false
  | a :: as, b :: bs =>
    if a.val.toNat < b.val.toNat then true
    else if b.val.toNat < a.val.toNat then false
    else charListLtb as bs

/-- `a ≤ b` on strings by code point. -/
def strLeB (a b : String) : Bool := !(charListLtb b.data a.data)

/-- The sort key comparison of `_snapshot_relations`:
`key=lambda x: (str(x.parent_id), str(x.child_id))`. -/
def relPairLe (a b : RelPair) : Bool :=
  if pyStr a.parent_id = pyStr b.parent_id then
    strLeB (pyStr a.child_id) (pyStr b.child_id)
  else strLeB (pyStr a.parent_id) (pyStr b.parent_id)

/-- Insert into a sorted list (stable insertion sort step). -/
def insertSorted (le : α → α → Bool) (x : α) : List α → List α
  | [] => [x]
  | y :: ys => if le x y then x :: y :: ys else y :: insertSorted le x ys

/-- Stable insertion sort, modelling Python's stable `list.sort`. -/
def sortBy (le : α → α → Bool) (l : List α) : List α :=
  l.foldr (insertSorted le) []

/-- The `{parent_id, child_id}` projection of a stored relation document. -/
def relPairOf (r : RelationDoc) : RelPair :=
  { parent_id := r.parent_id, child_id := r.child_id }

/-- `_snapshot_relations`: the deterministic snapshot of the **whole**
`relations` collection (note: no space filter in the Python code), sorted by
`(str(parent_id), str(child_id))`. -/
def _snapshot_relations (db : DB) : List RelPair :=
  sortBy relPairLe (db.relations.map (fun d => relPairOf d.2))

/-- `_get_latest_version`: the first document of the collection ordered by
`created_at` descending (ties keep the earliest streamed document). -/
def _get_latest_version (db : DB) : Option (String × VersionDoc) :=
  db.tree_versions.foldl
    (fun best d =>
      match best with
      | none => some d
      | some b => if b.2.created_at < d.2.created_at then some d else some b)
    none

/-- `_next_version_number`. -/
def _next_version_number (db : DB) : Nat :=
  match _get_latest_version db with
  | none => 1
  | some latest => latest.2.version + 1

/-- `POST /tree/save` (`save_tree`).  `newVid` is the id Firestore assigns to
the new version document, `now` the `created_at` timestamp string. -/
def save_tree (db : DB) (newVid now : String) : DB × (String × String × Nat) :=
  let rels := _snapshot_relations db
  let version := _next_version_number db
  let db₁ := { db with
    tree_versions := docSet db.tree_versions newVid
      { created_at := now, relations := rels, version := version } }
  let db₂ := { db₁ with tree_state_active := some (some newVid) }
  (db₂, (newVid, now, version))

/-- `POST /tree/recover` (`recover_tree`): delete **all** relation documents,
re-insert the snapshot (without any `space_id`), repoint the active version.
The ids of the re-inserted documents are an enumeration artefact of the
embedding (Firestore's `.add` generates them). -/
def recover_tree (db : DB) (version_id : String) : DB × Except HErr Unit :=
  match docGet db.tree_versions version_id with
  | none => (db, .error (.http 404 "Version not found"))
  | some data =>
    let rels := data.relations
    let newRels := rels.enum.map (fun p =>
      ("recovered" ++ toString p.1,
        ({ parent_id := p.2.parent_id, child_id := p.2.child_id,
           space_id := none } : RelationDoc)))
    let db₁ := { db with relations := newRels }
    ({ db₁ with tree_state_active := some (some version_id) }, .ok ())

/-- `GET /tree/unsaved` (`unsaved_changes`).  Returns the possibly-updated
state (the legacy branch lazily adopts the latest version as active) and the
`unsaved` flag. -/
def unsaved_changes (db : DB) : DB × Bool :=
  let current_relations := _snapshot_relations db
  match db.tree_state_active with
  | none =>
    match _get_latest_version db with
    | none => (db, false)
    | some latest =>
      let db₁ := { db with tree_state_active := some (some latest.1) }
      (db₁, latest.2.relations ≠ current_relations)
  | some active_data =>
    match truthy active_data with
    | none => (db, true)
    | some active_version_id =>
      match docGet db.tree_versions active_version_id with
      | none => (db, true)
      | some version_data => (db, version_data.relations ≠ current_relations)

/-- `d.setdefault(k, []).append(v)` on an adjacency association list. -/
def addToAssoc [BEq β] (m : List (Option String × List β)) (k : Option String)
    (v : β) : List (Option String × List β) :=
  match m.find? (fun d => d.1 == k) with
  | some _ => m.map (fun d => if d.1 == k then (d.1, d.2 ++ [v]) else d)
  | none => m ++ [(k, [v])]

/-- Lookup in an adjacency association list (`dict.get(k, [])`). -/
def assocGet [BEq β] (m : List (Option String × List β)) (k : Option String) :
    List β :=
  match m.find? (fun d => d.1 == k) with
  | some d => d.2
  | none => []

/-- `list(dict.fromkeys(l))`: deduplicate keeping first occurrences. -/
def dedupFirst [DecidableEq α] : List α → List α :=
  go []
where
  go (seen : List α) : List α → List α
    | [] => []
    | x :: xs => if x ∈ seen then go seen xs else x :: go (x :: seen) xs

/-- `spouse_of.get(mid)`. -/
def spouseGet (sm : List (String × String)) (mid : String) : Option String :=
  match sm.find? (fun d => d.1 == mid) with
  | some d => some d.2
  | none => none

mutual

/-- A node of the assembled forest:
`{"member": …, "children": […], "spouse"?: …}`, mutually defined with the
list of sibling nodes (`TreeForest`). -/
inductive TreeNode where
  | node (member : String × MemberDoc) (children : TreeForest)
      (spouse : Option (String × MemberDoc)) : TreeNode

inductive TreeForest where
  | nil : TreeForest
  | cons : TreeNode → TreeForest → TreeForest

end

/-- The read-only context of one `get_tree` request: the space's members,
the cleaned `children` adjacency and the `spouse_of` map. -/
structure AsmCtx where
  membersL : List (String × MemberDoc)
  childrenM : List (Option String × List String)
  spouseM : List (String × String)

/-- `combined_children` of `build`: the deduplicated union of the node's
children and its partner's children.  When the node has no spouse the partner
key is `None`, so — exactly as in the Python code — the children of the
synthetic root key are merged in. -/
def combinedChildren (ctx : AsmCtx) (node_id : Option String) : List String :=
  let parent_partner : Option String :=
    match node_id with
    | some nid => spouseGet ctx.spouseM nid
    | none => none
  dedupFirst (assocGet ctx.childrenM node_id ++ assocGet ctx.childrenM parent_partner)

/-- The `for cid in combined_children` loop of `build`, threading
`local_seen` and `rendered`.  `rec` is the recursive `build` call at the
remaining recursion depth. -/
def buildKids (ctx : AsmCtx)
    (rec : Option String → List String → List String → TreeForest × List String) :
    Option String → List String → List String → List String → List String →
    TreeForest × List String
  | _, [], _, _, rendered => (.nil, rendered)
  | node_id, cid :: rest, path, local_seen, rendered =>
    let skip : Bool :=
      (match node_id with
        | some nid => spouseGet ctx.spouseM nid == some cid
        | none => false)
      || cid ∈ rendered || cid ∈ local_seen || cid ∈ path
    if skip then buildKids ctx rec node_id rest path local_seen rendered
    else
      match docGet ctx.membersL cid with
      | none => buildKids ctx rec node_id rest path local_seen rendered
      | some node_member =>
        -- `partner_id and partner_id in members`: the attached spouse, if any
        let spouseAttach : Option (String × MemberDoc) :=
          match spouseGet ctx.spouseM cid with
          | some p =>
            match docGet ctx.membersL p with
            | some pm => some (p, pm)
            | none => none
          | none => none
        let built := rec (some cid) path rendered
        let node := TreeNode.node (cid, node_member) built.1 spouseAttach
        let local_seen₂ :=
          match spouseAttach with
          | some pr => cid :: pr.1 :: local_seen
          | none => cid :: local_seen
        let rendered₂ :=
          match spouseAttach with
          | some pr => cid :: pr.1 :: built.2
          | none => cid :: built.2
        let next := buildKids ctx rec node_id rest path local_seen₂ rendered₂
        (.cons node next.1, next.2)

/-- The recursive `build(node_id, path)` of `get_tree`.  Returns the built
child nodes and the updated global `rendered` set.  `fuel` bounds the
recursion depth (instantiated with `|members| + 1`, which the Python recursion
never exceeds since `path` only accumulates distinct member ids). -/
def buildNode (ctx : AsmCtx) : Nat → Option String → List String → List String →
    TreeForest × List String
  | 0, _, _, rendered => (.nil, rendered)
  | fuel + 1, node_id, path, rendered =>
    match node_id with
    | some nid =>
      if nid ∈ path then (.nil, rendered)
      else buildKids ctx (buildNode ctx fuel) node_id
        (combinedChildren ctx node_id) (nid :: path) [] rendered
    | none => buildKids ctx (buildNode ctx fuel) node_id
        (combinedChildren ctx node_id) path [] rendered

/-- The `for rid in root_ids` loop of `get_tree`, threading `seen_roots` and
`rendered`.  A root id absent from the member map raises the Python
`KeyError`. -/
def rootsLoop (ctx : AsmCtx) (fuel : Nat) :
    List String → List String → List String →
    Except HErr (TreeForest × List String)
  | [], _, rendered => .ok (.nil, rendered)
  | rid :: rest, seen_roots, rendered =>
    if rid ∈ rendered ∨ rid ∈ seen_roots then
      rootsLoop ctx fuel rest seen_roots rendered
    else
      match docGet ctx.membersL rid with
      | none => .error (.keyError rid)
      | some m =>
        let built := buildNode ctx fuel (some rid) [] rendered
        let spouseAttach : Option (String × MemberDoc) :=
          match spouseGet ctx.spouseM rid with
          | some p =>
            match docGet ctx.membersL p with
            | some pm => some (p, pm)
            | none => none
          | none => none
        let node := TreeNode.node (rid, m) built.1 spouseAttach
        let seen₂ :=
          match spouseAttach with
          | some pr => pr.1 :: seen_roots
          | none => seen_roots
        let rendered₂ :=
          match spouseAttach with
          | some pr => pr.1 :: built.2
          | none => built.2
        match rootsLoop ctx fuel rest (rid :: seen₂) (rid :: rendered₂) with
        | .ok (ns, rf) => .ok (.cons node ns, rf)
        | .error e => .error e

/-- `GET /tree` (`get_tree`): assemble the forest of the caller's space.
Returns the root nodes and the flat member list. -/
def get_tree (db : DB) (space : String) :
    Except HErr (TreeForest × List (String × MemberDoc)) :=
  let membersL := db.members.filter (fun d => d.2.space_id == space)
  let relationsL := db.relations.filter (fun d => d.2.space_id == some space)
  let childrenRaw := relationsL.foldl
    (fun m d => addToAssoc m d.2.parent_id d.2.child_id) []
  let childrenM := childrenRaw.map (fun d => (d.1, dedupFirst (d.2.filterMap id)))
  let spouseM := membersL.filterMap
    (fun d => (truthy d.2.spouse_id).map (fun s => (d.1, s)))
  let ctx : AsmCtx := ⟨membersL, childrenM, spouseM⟩
  let related_children := (childrenM.map (fun d => d.2)).flatten
  let explicit_roots := assocGet childrenM none
  let no_relation := (membersL.map (fun d => d.1)).filter
    (fun mid => mid ∉ related_children ∧ mid ∉ explicit_roots)
  let filtered_no_relation := no_relation.filter (fun mid =>
    match spouseGet spouseM mid with
    | some sid => ¬(sid ∈ related_children)
    | none => true)
  let root_ids := dedupFirst (explicit_roots ++ filtered_no_relation)
  match rootsLoop ctx (membersL.length + 1) root_ids [] [] with
  | .ok (roots, _) => .ok (roots, membersL)
  | .error e => .error e

/-- All member-field ids of a forest, in rendering order. -/
def forestMemberIds : TreeForest → List String
  | .nil => []
  | .cons (.node (mid, _) cs _) rest =>
    mid :: (forestMemberIds cs ++ forestMemberIds rest)

/-- All appearances of members in a forest: member fields and attached
spouses (the spec counts both). -/
def forestAppearIds : TreeForest → List String
  | .nil => []
  | .cons (.node (mid, _) cs sp) rest =>
    mid :: ((match sp with | some (sid, _) => [sid] | none => []) ++
      (forestAppearIds cs ++ forestAppearIds rest))

/-- The request body of `POST /tree/members` (the fields the embedding keeps). -/
structure CreateMember where
  first_name : String
  last_name : String
  spouse_id : Option String
  deriving Repr, DecidableEq

/-- `POST /tree/members` (`create_member`).  `newId` is the Firestore-assigned
id of the new member document. -/
def create_member (db : DB) (space : String) (member : CreateMember)
    (newId : String) : DB × Except HErr (String × MemberDoc) :=
  -- spouse validation
  let validated : Except HErr Unit :=
    match truthy member.spouse_id with
    | none => .ok ()
    | some sid =>
      match docGet db.members sid with
      | none => .error (.http 404 "Spouse not found")
      | some spouse_data =>
        if spouse_data.space_id ≠ space then
          .error (.http 400 "Both members must be in the same space")
        else
          match truthy spouse_data.spouse_id with
          | some _ => .error (.http 409 "Selected member already has a spouse")
          | none => .ok ()
  match validated with
  | .error e => (db, .error e)
  | .ok () =>
    let key := name_key member.first_name member.last_name
    let space_key := space ++ ":" ++ key
    match docCreate db.member_keys space_key
        { member_id := none, name_key := some key, space_id := space } with
    | none =>
      (db, .error (.http 409
        "Member with same first_name and last_name already exists in this family space"))
    | some keys₁ =>
      let data : MemberDoc :=
        { first_name := member.first_name, last_name := member.last_name,
          name_key := key, spouse_id := member.spouse_id, space_id := space }
      let db₁ := { db with
        member_keys := keys₁,
        members := docSet db.members newId data }
      let db₂ := { db₁ with
        member_keys := docSet db₁.member_keys space_key
          { member_id := some newId, name_key := none, space_id := space } }
      -- mutual spouse linking inside the try/except: a self-link raises 400
      -- and rolls back only the key document (the member document stays).
      match truthy member.spouse_id with
      | none => (db₂, .ok (newId, data))
      | some sid =>
        if newId = sid then
          ({ db₂ with member_keys := docDelete db₂.member_keys space_key },
            .error (.http 400 "You can't select the same person"))
        else
          ({ db₂ with members := updateSpouse db₂.members sid newId },
            .ok (newId, data))

/-- `DELETE /tree/members/{member_id}` (`delete_member`). -/
def delete_member (db : DB) (space member_id : String) : DB × Except HErr Unit :=
  match docGet db.members member_id with
  | none => (db, .error (.http 404 "Member not found"))
  | some member_data =>
    if member_data.space_id ≠ space then
      (db, .error (.http 403 "Member not found in current family space"))
    else
      let children := db.relations.filter (fun d =>
        d.2.parent_id == some member_id && d.2.space_id == some space)
      if children ≠ [] then
        (db, .error (.http 400 "Cannot delete: member has children"))
      else
        let db₁ := { db with relations := db.relations.filter (fun d =>
          ¬(d.2.child_id == some member_id && d.2.space_id == some space)) }
        let mk := member_data.name_key
        let db₂ :=
          if mk ≠ "" then
            { db₁ with member_keys := docDelete db₁.member_keys (space ++ ":" ++ mk) }
          else db₁
        ({ db₂ with members := docDelete db₂.members member_id }, .ok ())

/-- The adjacency map `by_parent` of `move`, over the space's relations. -/
def moveByParent (db : DB) (space : String) : List (Option String × List String) :=
  (db.relations.filter (fun d => d.2.space_id == some space)).foldl
    (fun m d =>
      match d.2.child_id with
      | none => m
      | some cid => addToAssoc m d.2.parent_id cid)
    []

/-- One pop of the descendants worklist: expand the children of `cur`,
pushing (and recording) each truthy child not already in `result`. -/
def descExpand (byParent : List (Option String × List String)) (cur : String)
    (stack result : List String) : List String × List String :=
  (assocGet byParent (some cur)).foldl
    (fun (st : List String × List String) c =>
      if c ≠ "" ∧ c ∉ st.2 then (c :: st.1, c :: st.2) else st)
    (stack, result)

/-- The fuel-indexed worklist loop of `descendants` (the Python `while stack`).
The stack is LIFO (`append`/`pop`), modelled with the head as the top. -/
def descLoop (byParent : List (Option String × List String)) :
    Nat → List String → List String → List String
  | 0, _, result => result
  | _ + 1, [], result => result
  | fuel + 1, cur :: stack, result =>
    let st := descExpand byParent cur stack result
    descLoop byParent fuel st.1 st.2

/-- `descendants(start)` inside `move`.  The fuel `2 * |relations| + 2`
dominates the number of worklist iterations (each iteration pops one element,
and every push adds a previously unseen child id to `result`). -/
def descendants (db : DB) (space start : String) : List String :=
  descLoop (moveByParent db space) (2 * db.relations.length + 2) [start] []

/-- `POST /tree/move` (`move`).  `newRelId` is the id of the relation document
added at the end. -/
def move (db : DB) (space child_id : String) (new_parent_id : Option String)
    (newRelId : String) : DB × Except HErr Unit :=
  match docGet db.members child_id with
  | none => (db, .error (.http 404 "Child member not found"))
  | some child_data =>
    if child_data.space_id ≠ space then
      (db, .error (.http 403 "Child member not found in current family space"))
    else
      let parentCheck : Except HErr Unit :=
        match new_parent_id with
        | none => .ok ()
        | some pid =>
          match docGet db.members pid with
          | none => .error (.http 404 "Parent member not found")
          | some parent_data =>
            if parent_data.space_id ≠ space then
              .error (.http 403 "Parent member not found in current family space")
            else .ok ()
      match parentCheck with
      | .error e => (db, .error e)
      | .ok () =>
        if new_parent_id = some child_id then
          (db, .error (.http 400 "Cannot set a member as their own parent"))
        else
          let spouseAsParent :=
            match new_parent_id with
            | none => false
            | some pid =>
              match truthy child_data.spouse_id with
              | some cs => cs = pid
              | none => false
          if spouseAsParent then
            (db, .error (.http 400 "Cannot set spouse as parent"))
          else
            let cycle :=
              match new_parent_id with
              | none => false
              | some pid => pid ∈ descendants db space child_id
            if cycle then
              (db, .error (.http 400 "Move would create a cycle"))
            else
              let db₁ := { db with relations := db.relations.filter (fun d =>
                ¬(d.2.child_id == some child_id && d.2.space_id == some space)) }
              ({ db₁ with relations := db₁.relations ++
                  [(newRelId, { child_id := some child_id,
                                parent_id := new_parent_id,
                                space_id := some space })] }, .ok ())

/-! ## Concrete example states used by counterexamples, code-bug evaluations
and witnesses. -/

/-- A member of `space` with no descriptive data. -/
def exMem (space : String) (sp : Option String := none) : MemberDoc :=
  { first_name := "f", last_name := "l", name_key := "f|l", spouse_id := sp,
    space_id := space }

/-- A relation document of `space`. -/
def exRel (p c : Option String) (space : Option String := some "demo") :
    RelationDoc :=
  { parent_id := p, child_id := c, space_id := space }

/-- Members `A` (unmarried) and the married couple `B` ↔ `C`, all in space
`demo`. -/
def exSpouseDB : DB :=
  { members := [("A", exMem "demo"), ("B", exMem "demo" (some "C")),
      ("C", exMem "demo" (some "B"))],
    relations := [], member_keys := [], tree_versions := [],
    tree_state_active := none }

/-- Three unmarried members `A`, `B`, `C` in space `demo`. -/
def exVirginDB : DB :=
  { members := [("A", exMem "demo"), ("B", exMem "demo"), ("C", exMem "demo")],
    relations := [], member_keys := [], tree_versions := [],
    tree_state_active := none }

/-- Members `A`, `B` with the cyclic relation set `A→B→A`. -/
def exCycleDB : DB :=
  { members := [("A", exMem "demo"), ("B", exMem "demo")],
    relations := [("r1", exRel (some "A") (some "B")),
      ("r2", exRel (some "B") (some "A"))],
    member_keys := [], tree_versions := [], tree_state_active := none }

/-- Chain `P → M → C` with `P` an explicit root and the spouse pair
`P` ↔ `C` spanning two generations. -/
def exGrandDB : DB :=
  { members := [("P", exMem "demo" (some "C")), ("M", exMem "demo"),
      ("C", exMem "demo" (some "P"))],
    relations := [("r0", exRel none (some "P")),
      ("r1", exRel (some "P") (some "M")),
      ("r2", exRel (some "M") (some "C"))],
    member_keys := [], tree_versions := [], tree_state_active := none }

/-- The cycle `A→B→A` plus a dangling explicit-root relation `None → X`
where `X` is not a member. -/
def exDanglingDB : DB :=
  { members := [("A", exMem "demo"), ("B", exMem "demo")],
    relations := [("r1", exRel (some "A") (some "B")),
      ("r2", exRel (some "B") (some "A")),
      ("r3", exRel none (some "X"))],
    member_keys := [], tree_versions := [], tree_state_active := none }

/-- Members `P`, `C` with the single relation `P → C`. -/
def exMoveDB : DB :=
  { members := [("P", exMem "demo"), ("C", exMem "demo")],
    relations := [("r1", exRel (some "P") (some "C"))],
    member_keys := [], tree_versions := [], tree_state_active := none }

/-- Relations of two different tenants `s1` and `s2`. -/
def exTwoTenantDB : DB :=
  { members := [],
    relations := [("r1", exRel (some "P") (some "C") (some "s1")),
      ("r2", exRel (some "Q") (some "D") (some "s2"))],
    member_keys := [], tree_versions := [], tree_state_active := none }

/-- Chain `X → Y → Z` in space `demo`, for the move-cycle witness. -/
def exChainDB : DB :=
  { members := [("X", exMem "demo"), ("Y", exMem "demo"), ("Z", exMem "demo")],
    relations := [("r1", exRel (some "X") (some "Y")),
      ("r2", exRel (some "Y") (some "Z"))],
    member_keys := [], tree_versions := [], tree_state_active := none }

/-- The empty store. -/
def exEmptyDB : DB :=
  { members := [], relations := [], member_keys := [], tree_versions := [],
    tree_state_active := none }

/-- Number of members of tenant `t` whose `name_key` is `k`. -/
def countKey (db : DB) (t k : String) : Nat :=
  (db.members.filter (fun d => d.2.space_id == t && d.2.name_key == k)).length

/-- The parent→child edge relation of tenant `space` as the spec describes
it: some relation document of the space links parent `a` to child `b`
(non-empty, since the move traversal skips falsy ids). -/
def moveEdge (db : DB) (space : String) (a b : String) : Prop :=
  b ≠ "" ∧ ∃ d ∈ db.relations, d.2.space_id = some space ∧
    d.2.parent_id = some a ∧ d.2.child_id = some b

/-- `y` is a descendant of `x` in tenant `space`: the transitive closure of
the parent→child edges (the spec's notion used by the cycle rule of `move`). -/
def IsDescendant (db : DB) (space x y : String) : Prop :=
  Relation.TransGen (moveEdge db space) x y

/-- The recursion path including the current node (the Python `build` adds
`node_id` to `path` on entry). -/
def pathPlus (node_id : Option String) (path : List String) : List String :=
  match node_id with
  | some nid => nid :: path
  | none => path

/-- Invariant of one tree-building step: the `rendered` set only grows, the
produced member-field ids are fresh (not yet rendered, not on the recursion
path), pairwise distinct, and all recorded in the outgoing `rendered` set. -/
def KidsOut (path rendered : List String) (out : TreeForest × List String) :
    Prop :=
  (∀ x ∈ rendered, x ∈ out.2) ∧
  (forestMemberIds out.1).Nodup ∧
  (∀ x ∈ forestMemberIds out.1, ¬ x ∈ rendered ∧ ¬ x ∈ path) ∧
  (∀ x ∈ forestMemberIds out.1, x ∈ out.2)

/-! ## Association-list store lemmas -/

theorem find?_map_set (c : List (String × α)) (id : String) (v : α) :
    (c.map (fun d => if d.1 == id then (id, v) else d)).find?
        (fun d => d.1 == id) =
      (c.find? (fun d => d.1 == id)).map (fun _ => (id, v)) := by
  induction c with
  | nil => rfl
  | cons d tl ih =>
    cases hq : (d.1 == id) with
    | true => simp [List.find?, hq, -List.find?_map]
    | false =>
      simp only [beq_iff_eq] at ih
      simp [List.find?, hq, ih, -List.find?_map]

theorem find?_map_set_ne (c : List (String × α)) (id id' : String) (v : α)
    (h : id' ≠ id) :
    (c.map (fun d => if d.1 == id then (id, v) else d)).find?
        (fun d => d.1 == id') =
      c.find? (fun d => d.1 == id') := by
  induction c with
  | nil => rfl
  | cons d tl ih =>
    cases hq : (d.1 == id) with
    | true =>
      have hne : (id == id') = false := beq_false_of_ne (fun hh => h hh.symm)
      have hd : d.1 = id := beq_iff_eq.1 hq
      have hb' : (d.1 == id') = false := by rw [hd]; exact hne
      simp only [beq_iff_eq] at ih
      simp [List.find?, hq, hne, hb', ih, -List.find?_map]
    | false =>
      cases hq' : (d.1 == id') with
      | true => simp [List.find?, hq, hq', -List.find?_map]
      | false =>
        simp only [beq_iff_eq] at ih
        simp [List.find?, hq, hq', ih, -List.find?_map]

theorem docGet_docSet_self (c : List (String × α)) (id : String) (v : α) :
    docGet (docSet c id v) id = some v := by
  unfold docGet docSet
  cases h : c.find? (fun d => d.1 == id) with
  | none =>
    rw [List.find?_append, h]
    simp [List.find?]
  | some d =>
    rw [find?_map_set, h]
    rfl

theorem docGet_docSet_ne (c : List (String × α)) (id id' : String) (v : α)
    (h : id' ≠ id) :
    docGet (docSet c id v) id' = docGet c id' := by
  unfold docGet docSet
  cases hf : c.find? (fun d => d.1 == id) with
  | none =>
    rw [List.find?_append]
    have : ([(id, v)].find? (fun d => d.1 == id')) = none := by
      simp [List.find?, beq_false_of_ne (fun hh => h hh.symm)]
    rw [this]
    simp
  | some d =>
    rw [find?_map_set_ne c id id' v h]

theorem docGet_append_single_self (c : List (String × α)) (id : String) (v : α) :
    docGet c id = none → docGet (c ++ [(id, v)]) id = some v := by
  intro h
  unfold docGet at *
  rw [List.find?_append]
  cases hf : c.find? (fun d => d.1 == id) with
  | none => simp [List.find?]
  | some d => rw [hf] at h; exact absurd h (by simp)

theorem docGet_append_single_ne (c : List (String × α)) (id id' : String)
    (v : α) (h : id' ≠ id) :
    docGet (c ++ [(id, v)]) id' = docGet c id' := by
  unfold docGet
  rw [List.find?_append]
  have : ([(id, v)].find? (fun d => d.1 == id')) = none := by
    simp [List.find?, beq_false_of_ne (fun hh => h hh.symm)]
  rw [this]
  cases hf : c.find? (fun d => d.1 == id') <;> simp

theorem docCreate_of_get_none (c : List (String × α)) (id : String) (v : α)
    (h : docGet c id = none) : docCreate c id v = some (c ++ [(id, v)]) := by
  unfold docCreate
  unfold docGet at h
  cases hf : c.find? (fun d => d.1 == id) with
  | none => rfl
  | some d => rw [hf] at h; exact absurd h (by simp)

theorem docCreate_of_get_some (c : List (String × α)) (id : String) (v x : α)
    (h : docGet c id = some x) : docCreate c id v = none := by
  unfold docCreate
  unfold docGet at h
  cases hf : c.find? (fun d => d.1 == id) with
  | none => rw [hf] at h; exact absurd h (by simp)
  | some d => rfl

theorem docSet_of_get_none (c : List (String × α)) (id : String) (v : α)
    (h : docGet c id = none) : docSet c id v = c ++ [(id, v)] := by
  unfold docSet
  unfold docGet at h
  cases hf : c.find? (fun d => d.1 == id) with
  | none => rfl
  | some d => rw [hf] at h; exact absurd h (by simp)

/-! ## Sorting lemmas for the snapshot -/

theorem insertSorted_perm (le : α → α → Bool) (x : α) (l : List α) :
    (insertSorted le x l).Perm (x :: l) := by
  induction l with
  | nil => exact List.Perm.refl _
  | cons y ys ih =>
    unfold insertSorted
    by_cases h : le x y
    · simp [h]
    · simp only [h, if_false]
      exact ((ih.cons y).trans (List.Perm.swap x y ys))

theorem sortBy_perm (le : α → α → Bool) (l : List α) :
    (sortBy le l).Perm l := by
  induction l with
  | nil => exact List.Perm.refl _
  | cons x xs ih =>
    have : sortBy le (x :: xs) = insertSorted le x (sortBy le xs) := rfl
    rw [this]
    exact (insertSorted_perm le x (sortBy le xs)).trans (ih.cons x)

/-! ## dedupFirst and adjacency lemmas -/

theorem dedupFirst_go_mem [DecidableEq α] (l seen : List α) (x : α) :
    x ∈ dedupFirst.go seen l ↔ x ∈ l ∧ x ∉ seen := by
  induction l generalizing seen with
  | nil => simp [dedupFirst.go]
  | cons a tl ih =>
    by_cases h : a ∈ seen
    · rw [show dedupFirst.go seen (a :: tl) = dedupFirst.go seen tl from by
        simp [dedupFirst.go, h]]
      rw [ih]
      constructor
      · exact fun ⟨h1, h2⟩ => ⟨List.mem_cons_of_mem a h1, h2⟩
      · rintro ⟨h1, h2⟩
        rcases List.mem_cons.1 h1 with rfl | h1
        · exact absurd h h2
        · exact ⟨h1, h2⟩
    · rw [show dedupFirst.go seen (a :: tl) =
          a :: dedupFirst.go (a :: seen) tl from by simp [dedupFirst.go, h]]
      constructor
      · intro hx
        rcases List.mem_cons.1 hx with rfl | hx
        · exact ⟨List.mem_cons_self _ _, h⟩
        · rcases (ih (a :: seen)).1 hx with ⟨h1, h2⟩
          exact ⟨List.mem_cons_of_mem a h1,
            fun hc => h2 (List.mem_cons_of_mem a hc)⟩
      · rintro ⟨h1, h2⟩
        rcases List.mem_cons.1 h1 with rfl | h1
        · exact List.mem_cons_self x _
        · by_cases hxa : x = a
          · subst hxa; exact List.mem_cons_self x _
          · exact List.mem_cons_of_mem a ((ih (a :: seen)).2
              ⟨h1, by simp [hxa, h2]⟩)

theorem dedupFirst_mem [DecidableEq α] (l : List α) (x : α) :
    x ∈ dedupFirst l ↔ x ∈ l := by
  rw [dedupFirst, dedupFirst_go_mem]
  simp

theorem dedupFirst_go_nodup [DecidableEq α] (l seen : List α) :
    (dedupFirst.go seen l).Nodup := by
  induction l generalizing seen with
  | nil => simp [dedupFirst.go]
  | cons a tl ih =>
    by_cases h : a ∈ seen
    · rw [show dedupFirst.go seen (a :: tl) = dedupFirst.go seen tl from by
        simp [dedupFirst.go, h]]
      exact ih seen
    · rw [show dedupFirst.go seen (a :: tl) =
          a :: dedupFirst.go (a :: seen) tl from by simp [dedupFirst.go, h]]
      refine List.Nodup.cons ?_ (ih (a :: seen))
      intro hmem
      exact ((dedupFirst_go_mem tl (a :: seen) a).1 hmem).2
        (List.mem_cons_self a seen)

theorem dedupFirst_nodup [DecidableEq α] (l : List α) :
    (dedupFirst l).Nodup := dedupFirst_go_nodup l []

theorem find?_map_upd [BEq β] (m : List (Option String × List β))
    (k : Option String) (v : β) :
    (m.map (fun d => if d.1 == k then (d.1, d.2 ++ [v]) else d)).find?
        (fun d => d.1 == k) =
      (m.find? (fun d => d.1 == k)).map (fun d => (d.1, d.2 ++ [v])) := by
  induction m with
  | nil => rfl
  | cons d tl ih =>
    cases hq : (d.1 == k) with
    | true => simp [List.find?, hq, -List.find?_map]
    | false =>
      simp only [beq_iff_eq] at ih
      simp [List.find?, hq, ih, -List.find?_map]

theorem find?_map_upd_ne [BEq β] (m : List (Option String × List β))
    (k k' : Option String) (v : β) (h : k' ≠ k) :
    (m.map (fun d => if d.1 == k then (d.1, d.2 ++ [v]) else d)).find?
        (fun d => d.1 == k') =
      m.find? (fun d => d.1 == k') := by
  induction m with
  | nil => rfl
  | cons d tl ih =>
    cases hq : (d.1 == k) with
    | true =>
      have hd : d.1 = k := beq_iff_eq.1 hq
      have hb' : (d.1 == k') = false := by
        rw [hd]; exact beq_false_of_ne (fun hh => h hh.symm)
      simp only [beq_iff_eq] at ih
      simp [List.find?, hq, hb', ih, -List.find?_map]
    | false =>
      cases hq' : (d.1 == k') with
      | true => simp [List.find?, hq, hq', -List.find?_map]
      | false =>
        simp only [beq_iff_eq] at ih
        simp [List.find?, hq, hq', ih, -List.find?_map]

theorem assocGet_addToAssoc [BEq β] (m : List (Option String × List β))
    (k k' : Option String) (v : β) :
    assocGet (addToAssoc m k v) k' =
      if k' = k then assocGet m k' ++ [v] else assocGet m k' := by
  unfold assocGet addToAssoc
  cases hf : m.find? (fun d => d.1 == k) with
  | none =>
    rw [List.find?_append]
    by_cases hk : k' = k
    · subst hk
      rw [hf]
      simp [List.find?]
    · have : ([(k, [v])].find? (fun d => d.1 == k')) = none := by
        simp [List.find?, beq_false_of_ne (fun hh : k = k' => hk hh.symm)]
      rw [this, if_neg hk]
      cases hg : m.find? (fun d => d.1 == k') <;> simp
  | some d =>
    by_cases hk : k' = k
    · subst hk
      rw [find?_map_upd, hf]
      simp
    · rw [find?_map_upd_ne m k k' v hk, if_neg hk]

/-- Membership in the flattened value lists after one `addToAssoc`. -/
theorem mem_flatten_addToAssoc [BEq β] (m : List (Option String × List β))
    (k : Option String) (v x : β) :
    x ∈ ((addToAssoc m k v).map (fun d => d.2)).flatten ↔
      x ∈ (m.map (fun d => d.2)).flatten ∨ x = v := by
  unfold addToAssoc
  cases hf : m.find? (fun d => d.1 == k) with
  | none =>
    simp [List.flatten_append]
  | some d =>
    have hdm : d ∈ m := List.mem_of_find?_eq_some hf
    have hdk := List.find?_some hf
    constructor
    · intro hx
      rcases List.mem_flatten.1 hx with ⟨l, hl, hxl⟩
      rcases List.mem_map.1 hl with ⟨e, he, rfl⟩
      rcases List.mem_map.1 he with ⟨d', hd', rfl⟩
      by_cases hq : (d'.1 == k) = true
      · rw [if_pos hq] at hxl
        simp only at hxl
        rcases List.mem_append.1 hxl with hxl | hxl
        · exact Or.inl (List.mem_flatten.2 ⟨d'.2, List.mem_map.2
            ⟨d', hd', rfl⟩, hxl⟩)
        · simp at hxl
          exact Or.inr hxl
      · rw [if_neg hq] at hxl
        exact Or.inl (List.mem_flatten.2 ⟨d'.2, List.mem_map.2
          ⟨d', hd', rfl⟩, hxl⟩)
    · intro hx
      rcases hx with hx | rfl
      · rcases List.mem_flatten.1 hx with ⟨l, hl, hxl⟩
        rcases List.mem_map.1 hl with ⟨d', hd', rfl⟩
        refine List.mem_flatten.2 ?_
        by_cases hq : (d'.1 == k) = true
        · exact ⟨d'.2 ++ [v], List.mem_map.2 ⟨(d'.1, d'.2 ++ [v]),
            List.mem_map.2 ⟨d', hd', by rw [if_pos hq]⟩, rfl⟩,
            List.mem_append_left _ hxl⟩
        · exact ⟨d'.2, List.mem_map.2 ⟨d', List.mem_map.2
            ⟨d', hd', by rw [if_neg hq]⟩, rfl⟩, hxl⟩
      · refine List.mem_flatten.2 ⟨d.2 ++ [x], List.mem_map.2
          ⟨(d.1, d.2 ++ [x]), List.mem_map.2 ⟨d, hdm, by rw [if_pos hdk]⟩,
            rfl⟩, List.mem_append_right _ (List.mem_singleton.2 rfl)⟩

/-- The step function of the `by_parent` fold in `move`. -/
theorem mem_assocGet_moveFold (rels : List (String × RelationDoc)) :
    ∀ (m : List (Option String × List String)) (k : Option String) (b : String),
    b ∈ assocGet (rels.foldl (fun m d =>
        match d.2.child_id with
        | none => m
        | some cid => addToAssoc m d.2.parent_id cid) m) k ↔
      (b ∈ assocGet m k ∨
        ∃ d ∈ rels, d.2.parent_id = k ∧ d.2.child_id = some b) := by
  induction rels with
  | nil => simp
  | cons r tl ih =>
    intro m k b
    rw [List.foldl_cons]
    cases hc : r.2.child_id with
    | none =>
      rw [show (match (none : Option String) with
          | none => m
          | some cid => addToAssoc m r.2.parent_id cid) = m from rfl]
      rw [ih]
      constructor
      · rintro (h | ⟨d, hd, h1, h2⟩)
        · exact Or.inl h
        · exact Or.inr ⟨d, List.mem_cons_of_mem r hd, h1, h2⟩
      · rintro (h | ⟨d, hd, h1, h2⟩)
        · exact Or.inl h
        · rcases List.mem_cons.1 hd with rfl | hd
          · rw [hc] at h2; cases h2
          · exact Or.inr ⟨d, hd, h1, h2⟩
    | some cid =>
      rw [show (match (some cid : Option String) with
          | none => m
          | some c => addToAssoc m r.2.parent_id c) =
          addToAssoc m r.2.parent_id cid from rfl]
      rw [ih, assocGet_addToAssoc]
      by_cases hk : k = r.2.parent_id
      · rw [if_pos hk]
        subst hk
        constructor
        · rintro (h | ⟨d, hd, h1, h2⟩)
          · rcases List.mem_append.1 h with h | h
            · exact Or.inl h
            · refine Or.inr ⟨r, List.mem_cons_self _ _, rfl, ?_⟩
              rw [hc]
              simp at h
              rw [h]
          · exact Or.inr ⟨d, List.mem_cons_of_mem r hd, h1, h2⟩
        · rintro (h | ⟨d, hd, h1, h2⟩)
          · exact Or.inl (List.mem_append_left _ h)
          · rcases List.mem_cons.1 hd with rfl | hd
            · rw [hc] at h2
              refine Or.inl (List.mem_append_right _ ?_)
              simp at h2
              simp [h2]
            · exact Or.inr ⟨d, hd, h1, h2⟩
      · rw [if_neg hk]
        constructor
        · rintro (h | ⟨d, hd, h1, h2⟩)
          · exact Or.inl h
          · exact Or.inr ⟨d, List.mem_cons_of_mem r hd, h1, h2⟩
        · rintro (h | ⟨d, hd, h1, h2⟩)
          · exact Or.inl h
          · rcases List.mem_cons.1 hd with rfl | hd
            · exact absurd h1.symm hk
            · exact Or.inr ⟨d, hd, h1, h2⟩

/-- Membership in the `move` adjacency map is exactly the existence of a
space-scoped relation document with the given parent and child. -/
theorem mem_moveByParent (db : DB) (space a b : String) :
    b ∈ assocGet (moveByParent db space) (some a) ↔
      ∃ d ∈ db.relations, d.2.space_id = some space ∧
        d.2.parent_id = some a ∧ d.2.child_id = some b := by
  unfold moveByParent
  rw [mem_assocGet_moveFold]
  constructor
  · rintro (h | ⟨d, hd, h1, h2⟩)
    · simp [assocGet] at h
    · rcases List.mem_filter.1 hd with ⟨hd, hsp⟩
      exact ⟨d, hd, by simpa using hsp, h1, h2⟩
  · rintro ⟨d, hd, hsp, h1, h2⟩
    exact Or.inr ⟨d, List.mem_filter.2 ⟨hd, by simpa using hsp⟩, h1, h2⟩

/-- Membership in the flattened adjacency values after the `move` fold. -/
theorem mem_flatten_moveFold (rels : List (String × RelationDoc)) :
    ∀ (m : List (Option String × List String)) (x : String),
    x ∈ ((rels.foldl (fun m d =>
        match d.2.child_id with
        | none => m
        | some cid => addToAssoc m d.2.parent_id cid) m).map
          (fun d => d.2)).flatten ↔
      (x ∈ (m.map (fun d => d.2)).flatten ∨
        ∃ d ∈ rels, d.2.child_id = some x) := by
  induction rels with
  | nil => simp
  | cons r tl ih =>
    intro m x
    rw [List.foldl_cons]
    cases hc : r.2.child_id with
    | none =>
      rw [show (match (none : Option String) with
          | none => m
          | some cid => addToAssoc m r.2.parent_id cid) = m from rfl]
      rw [ih]
      constructor
      · rintro (h | ⟨d, hd, h2⟩)
        · exact Or.inl h
        · exact Or.inr ⟨d, List.mem_cons_of_mem r hd, h2⟩
      · rintro (h | ⟨d, hd, h2⟩)
        · exact Or.inl h
        · rcases List.mem_cons.1 hd with rfl | hd
          · rw [hc] at h2; cases h2
          · exact Or.inr ⟨d, hd, h2⟩
    | some cid =>
      rw [show (match (some cid : Option String) with
          | none => m
          | some c => addToAssoc m r.2.parent_id c) =
          addToAssoc m r.2.parent_id cid from rfl]
      rw [ih, mem_flatten_addToAssoc]
      constructor
      · rintro ((h | rfl) | ⟨d, hd, h2⟩)
        · exact Or.inl h
        · exact Or.inr ⟨r, List.mem_cons_self _ _, hc⟩
        · exact Or.inr ⟨d, List.mem_cons_of_mem r hd, h2⟩
      · rintro (h | ⟨d, hd, h2⟩)
        · exact Or.inl (Or.inl h)
        · rcases List.mem_cons.1 hd with rfl | hd
          · rw [hc] at h2
            injection h2 with h2
            exact Or.inl (Or.inr h2.symm)
          · exact Or.inr ⟨d, hd, h2⟩

/-- Every id in an adjacency list's lookup occurs in the flattened values. -/
theorem assocGet_subset_flatten [BEq β] (m : List (Option String × List β))
    (k : Option String) (b : β) (h : b ∈ assocGet m k) :
    b ∈ (m.map (fun d => d.2)).flatten := by
  unfold assocGet at h
  cases hf : m.find? (fun d => d.1 == k) with
  | none => rw [hf] at h; cases h
  | some d =>
    rw [hf] at h
    exact List.mem_flatten.2 ⟨d.2, List.mem_map.2
      ⟨d, List.mem_of_find?_eq_some hf, rfl⟩, h⟩

/-- The deduplicated universe of child ids reachable by the `move` traversal
is no larger than the relation collection. -/
theorem moveUniv_length_le (db : DB) (space : String) :
    (dedupFirst (((moveByParent db space).map (fun d => d.2)).flatten)).length ≤
      db.relations.length := by
  have hsub : dedupFirst (((moveByParent db space).map
      (fun d => d.2)).flatten) ⊆
      db.relations.filterMap (fun d => d.2.child_id) := by
    intro x hx
    rw [dedupFirst_mem] at hx
    unfold moveByParent at hx
    rcases (mem_flatten_moveFold _ _ _).1 hx with h | ⟨d, hd, h2⟩
    · simp at h
    · exact List.mem_filterMap.2 ⟨d, (List.mem_filter.1 hd).1, h2⟩
  calc (dedupFirst (((moveByParent db space).map (fun d => d.2)).flatten)).length
      ≤ (db.relations.filterMap (fun d => d.2.child_id)).length :=
        ((dedupFirst_nodup _).subperm hsub).length_le
    _ ≤ db.relations.length := List.length_filterMap_le _ _

/-- Removing a fresh element from the complement shrinks the filtered
universe by exactly one. -/
theorem filter_not_mem_cons_length (univ : List String) (hnd : univ.Nodup)
    (c : String) (result : List String) (hc : c ∈ univ) (hcr : ¬ c ∈ result) :
    (univ.filter (fun x => ¬ x ∈ (c :: result))).length + 1 =
      (univ.filter (fun x => ¬ x ∈ result)).length := by
  induction univ with
  | nil => cases hc
  | cons a tl ih =>
    rcases List.nodup_cons.1 hnd with ⟨hat, htl⟩
    by_cases hac : a = c
    · subst hac
      rw [show (a :: tl).filter (fun x => ¬ x ∈ (a :: result)) =
          tl.filter (fun x => ¬ x ∈ (a :: result)) from by
        simp [List.filter]]
      rw [show (a :: tl).filter (fun x => ¬ x ∈ result) =
          a :: tl.filter (fun x => ¬ x ∈ result) from by
        simp [List.filter, hcr]]
      rw [show tl.filter (fun x => ¬ x ∈ (a :: result)) =
          tl.filter (fun x => ¬ x ∈ result) from
        List.filter_congr (fun x hx => by
          simp only [decide_not]
          congr 1
          simp only [List.mem_cons, decide_eq_decide]
          constructor
          · rintro (rfl | h)
            · exact absurd hx hat
            · exact h
          · exact Or.inr)]
      simp
    · have hct : c ∈ tl := by
        rcases List.mem_cons.1 hc with rfl | h
        · exact absurd rfl hac
        · exact h
      by_cases har : a ∈ result
      · rw [show (a :: tl).filter (fun x => ¬ x ∈ (c :: result)) =
            tl.filter (fun x => ¬ x ∈ (c :: result)) from by
          simp [List.filter, har]]
        rw [show (a :: tl).filter (fun x => ¬ x ∈ result) =
            tl.filter (fun x => ¬ x ∈ result) from by
          simp [List.filter, har]]
        exact ih htl hct
      · rw [show (a :: tl).filter (fun x => ¬ x ∈ (c :: result)) =
            a :: tl.filter (fun x => ¬ x ∈ (c :: result)) from by
          simp [List.filter, har, hac]]
        rw [show (a :: tl).filter (fun x => ¬ x ∈ result) =
            a :: tl.filter (fun x => ¬ x ∈ result) from by
          simp [List.filter, har]]
        simp only [List.length_cons]
        rw [Nat.succ_add]
        rw [ih htl hct]

/-- One expansion step of the `descendants` worklist: everything already
recorded stays, all (truthy) children of the popped node become recorded,
new entries go on the stack, and the fuel measure strictly decreases per
push. -/
theorem descExpandFold_spec (univ : List String) (hnd : univ.Nodup) :
    ∀ (cs : List String), (∀ c ∈ cs, c ∈ univ) →
    ∀ (stack result : List String),
    (∀ x ∈ result, x ∈ (cs.foldl (fun (st : List String × List String) c =>
        if c ≠ "" ∧ c ∉ st.2 then (c :: st.1, c :: st.2) else st)
        (stack, result)).2) ∧
    (∀ c ∈ cs, c ≠ "" → c ∈ (cs.foldl (fun (st : List String × List String) c =>
        if c ≠ "" ∧ c ∉ st.2 then (c :: st.1, c :: st.2) else st)
        (stack, result)).2) ∧
    (∀ x ∈ (cs.foldl (fun (st : List String × List String) c =>
        if c ≠ "" ∧ c ∉ st.2 then (c :: st.1, c :: st.2) else st)
        (stack, result)).2, x ∈ result ∨
      x ∈ (cs.foldl (fun (st : List String × List String) c =>
        if c ≠ "" ∧ c ∉ st.2 then (c :: st.1, c :: st.2) else st)
        (stack, result)).1) ∧
    (∀ x ∈ stack, x ∈ (cs.foldl (fun (st : List String × List String) c =>
        if c ≠ "" ∧ c ∉ st.2 then (c :: st.1, c :: st.2) else st)
        (stack, result)).1) ∧
    ((cs.foldl (fun (st : List String × List String) c =>
        if c ≠ "" ∧ c ∉ st.2 then (c :: st.1, c :: st.2) else st)
        (stack, result)).1.length + 2 *
        ((univ.filter (fun c => ¬ c ∈ (cs.foldl
          (fun (st : List String × List String) c =>
            if c ≠ "" ∧ c ∉ st.2 then (c :: st.1, c :: st.2) else st)
          (stack, result)).2)).length) ≤
      stack.length + 2 * ((univ.filter (fun c => ¬ c ∈ result)).length)) := by
  intro cs
  induction cs with
  | nil =>
    intro _ stack result
    exact ⟨fun x hx => hx, fun c hc => absurd hc (List.not_mem_nil c),
      fun x hx => Or.inl hx, fun x hx => hx, Nat.le_refl _⟩
  | cons c cs ih =>
    intro hcs stack result
    rw [List.foldl_cons]
    by_cases hcond : c ≠ "" ∧ c ∉ result
    · rw [if_pos hcond]
      have ihr := ih (fun x hx => hcs x (List.mem_cons_of_mem c hx))
        (c :: stack) (c :: result)
      refine ⟨?_, ?_, ?_, ?_, ?_⟩
      · exact fun x hx => ihr.1 x (List.mem_cons_of_mem c hx)
      · intro c' hc' hne
        rcases List.mem_cons.1 hc' with rfl | hc'
        · exact ihr.1 c' (List.mem_cons_self _ _)
        · exact ihr.2.1 c' hc' hne
      · intro x hx
        rcases ihr.2.2.1 x hx with h | h
        · rcases List.mem_cons.1 h with rfl | h
          · exact Or.inr (ihr.2.2.2.1 x (List.mem_cons_self _ _))
          · exact Or.inl h
        · exact Or.inr h
      · exact fun x hx => ihr.2.2.2.1 x (List.mem_cons_of_mem c hx)
      · refine le_trans ihr.2.2.2.2 ?_
        have hcu : c ∈ univ := hcs c (List.mem_cons_self _ _)
        have := filter_not_mem_cons_length univ hnd c result hcu hcond.2
        simp only [List.length_cons]
        omega
    · rw [if_neg hcond]
      have ihr := ih (fun x hx => hcs x (List.mem_cons_of_mem c hx))
        stack result
      refine ⟨ihr.1, ?_, ihr.2.2.1, ihr.2.2.2.1, ihr.2.2.2.2⟩
      intro c' hc' hne
      rcases List.mem_cons.1 hc' with rfl | hc'
      · have : c' ∈ result := by
          by_contra hmem
          exact hcond ⟨hne, hmem⟩
        exact ihr.1 c' this
      · exact ihr.2.1 c' hc' hne

/-- Main invariant of the `descendants` worklist loop: with sufficient fuel,
the recorded set only grows, the final set is closed under truthy child
edges, and the children of the start node end up recorded. -/
theorem descLoop_spec (byP : List (Option String × List String))
    (start : String) :
    ∀ (fuel : Nat) (stack result : List String),
    stack.length + 2 * (((dedupFirst ((byP.map (fun d => d.2)).flatten)).filter
      (fun c => ¬ c ∈ result)).length) < fuel →
    (∀ a ∈ result, a ∈ stack ∨
      ∀ c ∈ assocGet byP (some a), c ≠ "" → c ∈ result) →
    (start ∈ stack ∨
      ∀ c ∈ assocGet byP (some start), c ≠ "" → c ∈ result) →
    (∀ x ∈ result, x ∈ descLoop byP fuel stack result) ∧
    (∀ a ∈ descLoop byP fuel stack result,
      ∀ c ∈ assocGet byP (some a), c ≠ "" → c ∈ descLoop byP fuel stack result) ∧
    (∀ c ∈ assocGet byP (some start), c ≠ "" →
      c ∈ descLoop byP fuel stack result) := by
  intro fuel
  induction fuel with
  | zero => intro stack result hfuel; omega
  | succ f ih =>
    intro stack result hfuel hinv hstart
    cases stack with
    | nil =>
      rw [show descLoop byP (f + 1) [] result = result from rfl]
      refine ⟨fun x hx => hx, ?_, ?_⟩
      · intro a ha c hc hne
        rcases hinv a ha with h | h
        · cases h
        · exact h c hc hne
      · intro c hc hne
        rcases hstart with h | h
        · cases h
        · exact h c hc hne
    | cons cur stack' =>
      rw [show descLoop byP (f + 1) (cur :: stack') result =
        descLoop byP f (descExpand byP cur stack' result).1
          (descExpand byP cur stack' result).2 from rfl]
      have hnd := dedupFirst_nodup ((byP.map (fun d => d.2)).flatten)
      have hcs : ∀ c ∈ assocGet byP (some cur),
          c ∈ dedupFirst ((byP.map (fun d => d.2)).flatten) := by
        intro c hc
        exact (dedupFirst_mem _ _).2 (assocGet_subset_flatten byP (some cur) c hc)
      have E := descExpandFold_spec _ hnd (assocGet byP (some cur)) hcs
        stack' result
      rw [show (List.foldl (fun (st : List String × List String) c =>
        if c ≠ "" ∧ c ∉ st.2 then (c :: st.1, c :: st.2) else st)
        (stack', result) (assocGet byP (some cur))) =
        descExpand byP cur stack' result from rfl] at E
      have hE1 : ∀ x ∈ result, x ∈ (descExpand byP cur stack' result).2 := E.1
      have hE2 : ∀ c ∈ assocGet byP (some cur), c ≠ "" →
          c ∈ (descExpand byP cur stack' result).2 := E.2.1
      have hE3 : ∀ x ∈ (descExpand byP cur stack' result).2,
          x ∈ result ∨ x ∈ (descExpand byP cur stack' result).1 := E.2.2.1
      have hE4 : ∀ x ∈ stack', x ∈ (descExpand byP cur stack' result).1 :=
        E.2.2.2.1
      have hE5 := E.2.2.2.2
      have hfuel' : (descExpand byP cur stack' result).1.length +
          2 * (((dedupFirst ((byP.map (fun d => d.2)).flatten)).filter
            (fun c => ¬ c ∈ (descExpand byP cur stack' result).2)).length) < f := by
        simp only [List.length_cons] at hfuel
        omega
      have hinv' : ∀ a ∈ (descExpand byP cur stack' result).2,
          a ∈ (descExpand byP cur stack' result).1 ∨
          ∀ c ∈ assocGet byP (some a), c ≠ "" →
            c ∈ (descExpand byP cur stack' result).2 := by
        intro a ha
        rcases hE3 a ha with har | has
        · rcases hinv a har with hins | hcl
          · rcases List.mem_cons.1 hins with rfl | hins
            · exact Or.inr (fun c hc hne => hE2 c hc hne)
            · exact Or.inl (hE4 a hins)
          · exact Or.inr (fun c hc hne => hE1 c (hcl c hc hne))
        · exact Or.inl has
      have hstart' : start ∈ (descExpand byP cur stack' result).1 ∨
          ∀ c ∈ assocGet byP (some start), c ≠ "" →
            c ∈ (descExpand byP cur stack' result).2 := by
        rcases hstart with hins | hcl
        · rcases List.mem_cons.1 hins with rfl | hins
          · exact Or.inr (fun c hc hne => hE2 c hc hne)
          · exact Or.inl (hE4 start hins)
        · exact Or.inr (fun c hc hne => hE1 c (hcl c hc hne))
      obtain ⟨IH1, IH2, IH3⟩ := ih (descExpand byP cur stack' result).1
        (descExpand byP cur stack' result).2 hfuel' hinv' hstart'
      exact ⟨fun x hx => IH1 x (hE1 x hx), IH2, IH3⟩

/-- Completeness of the `descendants` computation of `move`: every spec-level
descendant is found by the worklist traversal. -/
theorem descendants_complete (db : DB) (space start p : String)
    (h : IsDescendant db space start p) : p ∈ descendants db space start := by
  have hfuel : (1 : Nat) + 2 * (((dedupFirst (((moveByParent db space).map
      (fun d => d.2)).flatten)).filter
      (fun c => ¬ c ∈ ([] : List String))).length) <
      2 * db.relations.length + 2 := by
    have h1 := moveUniv_length_le db space
    have h2 : ((dedupFirst (((moveByParent db space).map
        (fun d => d.2)).flatten)).filter
        (fun c => ¬ c ∈ ([] : List String))).length =
        (dedupFirst (((moveByParent db space).map
          (fun d => d.2)).flatten)).length := by
      congr 1
      apply List.filter_eq_self.2
      intro a _
      simp
    omega
  obtain ⟨H1, H2, H3⟩ := descLoop_spec (moveByParent db space) start
    (2 * db.relations.length + 2) [start] []
    (by simpa using hfuel)
    (fun a ha => absurd ha (List.not_mem_nil a))
    (Or.inl (List.mem_cons_self _ _))
  unfold IsDescendant at h
  unfold descendants
  induction h with
  | single he =>
    rcases he with ⟨hne, d, hd, hsp, hp, hc⟩
    exact H3 _ ((mem_moveByParent db space _ _).2 ⟨d, hd, hsp, hp, hc⟩) hne
  | tail hxy he ihp =>
    rcases he with ⟨hne, d, hd, hsp, hp, hc⟩
    exact H2 _ ihp _ ((mem_moveByParent db space _ _).2 ⟨d, hd, hsp, hp, hc⟩) hne

/-- **C8**: a move whose `new_parent_id` is the child itself or a (spec-level)
descendant of the child — both referring to members of the caller's space —
fails with `BadRequest` (400) and leaves the store unchanged. -/
theorem C8_move_cycle_rejected (db : DB) (space cid pid rid : String)
    (cm pm : MemberDoc)
    (hc : docGet db.members cid = some cm) (hcs : cm.space_id = space)
    (hp : docGet db.members pid = some pm) (hps : pm.space_id = space)
    (hdesc : pid = cid ∨ IsDescendant db space cid pid) :
    (∃ msg, (move db space cid (some pid) rid).2 = .error (.http 400 msg)) ∧
    (move db space cid (some pid) rid).1 = db := by
  simp only [move, hc, hp]
  rw [if_neg (show ¬ (cm.space_id ≠ space) from by simp [hcs])]
  rw [if_neg (show ¬ (pm.space_id ≠ space) from by simp [hps])]
  by_cases hpc : (some pid : Option String) = some cid
  · rw [if_pos hpc]
    exact ⟨⟨"Cannot set a member as their own parent", rfl⟩, rfl⟩
  · rw [if_neg hpc]
    have hd : IsDescendant db space cid pid := by
      rcases hdesc with h | h
      · exact absurd (by rw [h]) hpc
      · exact h
    have hcyc : pid ∈ descendants db space cid :=
      descendants_complete db space cid pid hd
    cases hts : truthy cm.spouse_id with
    | some cs =>
      by_cases hcp : cs = pid
      · exact ⟨⟨"Cannot set spouse as parent", by simp [hts, hcp]⟩,
          by simp [hts, hcp]⟩
      · refine ⟨⟨"Move would create a cycle", ?_⟩, ?_⟩ <;>
          simp [hts, hcp, hcyc]
    | none =>
      refine ⟨⟨"Move would create a cycle", ?_⟩, ?_⟩ <;>
        simp [hts, hcyc]

/-- Witness for C8: in the chain `X → Y → Z`, moving `X` under its descendant
`Z` is rejected with 400 and the store is untouched. -/
theorem C8_move_cycle_rejected_witness :
    (∃ msg, (move exChainDB "demo" "X" (some "Z") "r9").2 =
      .error (.http 400 msg)) ∧
    (move exChainDB "demo" "X" (some "Z") "r9").1 = exChainDB :=
  C8_move_cycle_rejected exChainDB "demo" "X" "Z" "r9" (exMem "demo")
    (exMem "demo") (by decide) (by decide) (by decide) (by decide)
    (Or.inr (by
      have e1 : moveEdge exChainDB "demo" "X" "Y" :=
        ⟨by decide, ("r1", exRel (some "X") (some "Y")),
          by decide, by decide, by decide, by decide⟩
      have e2 : moveEdge exChainDB "demo" "Y" "Z" :=
        ⟨by decide, ("r2", exRel (some "Y") (some "Z")),
          by decide, by decide, by decide, by decide⟩
      exact Relation.TransGen.tail (Relation.TransGen.single e1) e2))

/-! ## Tree-assembly invariants -/

theorem forestMemberIds_cons (m : String × MemberDoc) (cs : TreeForest)
    (sp : Option (String × MemberDoc)) (rest : TreeForest) :
    forestMemberIds (.cons (.node m cs sp) rest) =
      m.1 :: (forestMemberIds cs ++ forestMemberIds rest) := rfl

theorem kidsOut_trivial (path rendered : List String) :
    KidsOut path rendered (.nil, rendered) := by
  refine ⟨fun x hx => hx, ?_, ?_, ?_⟩ <;> simp [forestMemberIds]

/-- Assembling one child node out of its subtree (`built`), its optional
spouse attachment, the updated `rendered` set `r₂` and the tail of the loop
(`next`) preserves the building invariant. -/
theorem kidsOut_step (path rendered : List String) (cid : String)
    (m : MemberDoc) (sp : Option (String × MemberDoc))
    (built next : TreeForest × List String) (r₂ : List String)
    (hcidr : ¬ cid ∈ rendered) (hcidp : ¬ cid ∈ path)
    (hB : KidsOut (cid :: path) rendered built)
    (hr₁ : ∀ x ∈ built.2, x ∈ r₂)
    (hr₂ : cid ∈ r₂)
    (hN : KidsOut path r₂ next) :
    KidsOut path rendered
      (.cons (.node (cid, m) built.1 sp) next.1, next.2) := by
  obtain ⟨hB1, hB2, hB3, hB4⟩ := hB
  obtain ⟨hN1, hN2, hN3, hN4⟩ := hN
  have hrr₂ : ∀ x ∈ rendered, x ∈ r₂ := fun x hx => hr₁ x (hB1 x hx)
  refine ⟨fun x hx => hN1 x (hrr₂ x hx), ?_, ?_, ?_⟩
  · rw [forestMemberIds_cons]
    refine List.nodup_cons.2 ⟨?_, ?_⟩
    · intro hmem
      rcases List.mem_append.1 hmem with h | h
      · exact (hB3 cid h).2 (List.mem_cons_self _ _)
      · exact (hN3 cid h).1 hr₂
    · refine List.Nodup.append hB2 hN2 ?_
      intro x hx hx'
      exact (hN3 x hx').1 (hr₁ x (hB4 x hx))
  · rw [forestMemberIds_cons]
    intro x hx
    rcases List.mem_cons.1 hx with rfl | hx
    · exact ⟨hcidr, hcidp⟩
    · rcases List.mem_append.1 hx with h | h
      · exact ⟨(hB3 x h).1, fun hp => (hB3 x h).2 (List.mem_cons_of_mem _ hp)⟩
      · exact ⟨fun hr => (hN3 x h).1 (hrr₂ x hr), (hN3 x h).2⟩
  · rw [forestMemberIds_cons]
    intro x hx
    rcases List.mem_cons.1 hx with rfl | hx
    · exact hN1 x hr₂
    · rcases List.mem_append.1 hx with h | h
      · exact hN1 x (hr₁ x (hB4 x h))
      · exact hN4 x h

/-- The child loop of `build` maintains the invariant, given that the
recursive call does. -/
theorem buildKids_out (ctx : AsmCtx)
    (rec : Option String → List String → List String → TreeForest × List String)
    (Hrec : ∀ nid path rendered,
      KidsOut (pathPlus nid path) rendered (rec nid path rendered)) :
    ∀ (cids : List String) (node_id : Option String)
      (path seen rendered : List String),
    KidsOut path rendered (buildKids ctx rec node_id cids path seen rendered) := by
  intro cids
  induction cids with
  | nil =>
    intro node_id path seen rendered
    exact kidsOut_trivial path rendered
  | cons cid rest ih =>
    intro node_id path seen rendered
    simp only [buildKids]
    split
    · exact ih node_id path seen rendered
    · rename_i hskip
      have hcidr : ¬ cid ∈ rendered := fun h => hskip (by simp [h])
      have hcidp : ¬ cid ∈ path := fun h => hskip (by simp [h])
      split
      · exact ih node_id path seen rendered
      · rename_i m hm
        have hB := Hrec (some cid) path rendered
        rw [show pathPlus (some cid) path = cid :: path from rfl] at hB
        generalize (match spouseGet ctx.spouseM cid with
          | some p =>
            match docGet ctx.membersL p with
            | some pm => some (p, pm)
            | none => none
          | none => none : Option (String × MemberDoc)) = sa
        cases sa with
        | none =>
          exact kidsOut_step path rendered cid m none
            (rec (some cid) path rendered)
            (buildKids ctx rec node_id rest path (cid :: seen)
              (cid :: (rec (some cid) path rendered).2))
            (cid :: (rec (some cid) path rendered).2)
            hcidr hcidp hB
            (fun x hx => List.mem_cons_of_mem _ hx)
            (List.mem_cons_self _ _)
            (ih node_id path _ _)
        | some pr =>
          exact kidsOut_step path rendered cid m (some pr)
            (rec (some cid) path rendered)
            (buildKids ctx rec node_id rest path (cid :: pr.1 :: seen)
              (cid :: pr.1 :: (rec (some cid) path rendered).2))
            (cid :: pr.1 :: (rec (some cid) path rendered).2)
            hcidr hcidp hB
            (fun x hx => List.mem_cons_of_mem _
              (List.mem_cons_of_mem _ hx))
            (List.mem_cons_self _ _)
            (ih node_id path _ _)

/-- The recursive `build` maintains the invariant at every fuel. -/
theorem buildNode_out (ctx : AsmCtx) :
    ∀ (fuel : Nat) (node_id : Option String) (path rendered : List String),
    KidsOut (pathPlus node_id path) rendered
      (buildNode ctx fuel node_id path rendered) := by
  intro fuel
  induction fuel with
  | zero =>
    intro node_id path rendered
    exact kidsOut_trivial _ _
  | succ f ihf =>
    intro node_id path rendered
    cases node_id with
    | none =>
      exact buildKids_out ctx (buildNode ctx f) ihf
        (combinedChildren ctx none) none path [] rendered
    | some nid =>
      by_cases hp : nid ∈ path
      · simp only [buildNode]
        rw [if_pos hp]
        exact kidsOut_trivial _ _
      · simp only [buildNode]
        rw [if_neg hp]
        exact buildKids_out ctx (buildNode ctx f) ihf
          (combinedChildren ctx (some nid)) (some nid) (nid :: path) []
          rendered

/-- Assembling one root node preserves the forest-level invariant. -/
theorem rootsOut_step (rid : String) (m : MemberDoc)
    (sp : Option (String × MemberDoc)) (built : TreeForest × List String)
    (rendered r₂ rf : List String) (ns : TreeForest)
    (hnr : ¬ rid ∈ rendered)
    (hB : KidsOut [rid] rendered built)
    (hr₁ : ∀ x ∈ built.2, x ∈ r₂) (hr₂ : rid ∈ r₂)
    (hN : (forestMemberIds ns).Nodup ∧
      (∀ x ∈ forestMemberIds ns, ¬ x ∈ r₂) ∧
      (∀ x ∈ forestMemberIds ns, x ∈ rf) ∧ (∀ x ∈ r₂, x ∈ rf)) :
    (forestMemberIds (.cons (.node (rid, m) built.1 sp) ns)).Nodup ∧
    (∀ x ∈ forestMemberIds (.cons (.node (rid, m) built.1 sp) ns),
      ¬ x ∈ rendered) ∧
    (∀ x ∈ forestMemberIds (.cons (.node (rid, m) built.1 sp) ns), x ∈ rf) ∧
    (∀ x ∈ rendered, x ∈ rf) := by
  obtain ⟨hB1, hB2, hB3, hB4⟩ := hB
  obtain ⟨hN1, hN2, hN3, hN4⟩ := hN
  have hrr₂ : ∀ x ∈ rendered, x ∈ r₂ := fun x hx => hr₁ x (hB1 x hx)
  refine ⟨?_, ?_, ?_, fun x hx => hN4 x (hrr₂ x hx)⟩
  · rw [forestMemberIds_cons]
    refine List.nodup_cons.2 ⟨?_, ?_⟩
    · intro hmem
      rcases List.mem_append.1 hmem with h | h
      · exact (hB3 rid h).2 (List.mem_cons_self _ _)
      · exact hN2 rid h hr₂
    · refine List.Nodup.append hB2 hN1 ?_
      intro x hx hx'
      exact hN2 x hx' (hr₁ x (hB4 x hx))
  · rw [forestMemberIds_cons]
    intro x hx
    rcases List.mem_cons.1 hx with rfl | hx
    · exact hnr
    · rcases List.mem_append.1 hx with h | h
      · exact (hB3 x h).1
      · exact fun hr => hN2 x h (hrr₂ x hr)
  · rw [forestMemberIds_cons]
    intro x hx
    rcases List.mem_cons.1 hx with rfl | hx
    · exact hN4 x hr₂
    · rcases List.mem_append.1 hx with h | h
      · exact hN4 x (hr₁ x (hB4 x h))
      · exact hN3 x h

/-- The roots loop of `get_tree` renders every member id as the member field
of at most one node: the produced ids are distinct, fresh with respect to the
incoming `rendered` set, and recorded in the final one. -/
theorem rootsLoop_out (ctx : AsmCtx) (fuel : Nat) :
    ∀ (rids seen rendered : List String) (F : TreeForest) (rf : List String),
    rootsLoop ctx fuel rids seen rendered = .ok (F, rf) →
    (forestMemberIds F).Nodup ∧
    (∀ x ∈ forestMemberIds F, ¬ x ∈ rendered) ∧
    (∀ x ∈ forestMemberIds F, x ∈ rf) ∧
    (∀ x ∈ rendered, x ∈ rf) := by
  intro rids
  induction rids with
  | nil =>
    intro seen rendered F rf h
    rw [show rootsLoop ctx fuel [] seen rendered =
      .ok ((.nil : TreeForest), rendered) from rfl] at h
    injection h with h1
    obtain ⟨h2, h3⟩ := Prod.ext_iff.1 h1
    subst h2
    subst h3
    exact ⟨by simp [forestMemberIds], by simp [forestMemberIds],
      by simp [forestMemberIds], fun x hx => hx⟩
  | cons rid rest ih =>
    intro seen rendered F rf h
    simp only [rootsLoop] at h
    split at h
    · exact ih seen rendered F rf h
    · rename_i hskip
      have hnr : ¬ rid ∈ rendered := fun hc => hskip (Or.inl hc)
      split at h
      · cases h
      · rename_i m hm
        generalize (match spouseGet ctx.spouseM rid with
          | some p =>
            match docGet ctx.membersL p with
            | some pm => some (p, pm)
            | none => none
          | none => none : Option (String × MemberDoc)) = sa at h
        have hB := buildNode_out ctx fuel (some rid) [] rendered
        rw [show pathPlus (some rid) [] = [rid] from rfl] at hB
        cases sa with
        | none =>
          split at h
          · rename_i p hrec
            injection h with h1
            obtain ⟨h2, h3⟩ := Prod.ext_iff.1 h1
            subst h2
            subst h3
            exact rootsOut_step rid m none
              (buildNode ctx fuel (some rid) [] rendered) rendered
              (rid :: (buildNode ctx fuel (some rid) [] rendered).2) _ _
              hnr hB (fun x hx => List.mem_cons_of_mem _ hx)
              (List.mem_cons_self _ _)
              (ih _ _ _ _ hrec)
          · cases h
        | some pr =>
          split at h
          · rename_i p hrec
            injection h with h1
            obtain ⟨h2, h3⟩ := Prod.ext_iff.1 h1
            subst h2
            subst h3
            exact rootsOut_step rid m (some pr)
              (buildNode ctx fuel (some rid) [] rendered) rendered
              (rid :: pr.1 :: (buildNode ctx fuel (some rid) [] rendered).2)
              _ _ hnr hB
              (fun x hx => List.mem_cons_of_mem _ (List.mem_cons_of_mem _ hx))
              (List.mem_cons_self _ _)
              (ih _ _ _ _ hrec)
          · cases h

/-- **C5** (amended): whenever assembly succeeds, every member id occurs as
the `member` field of at most one node of the returned forest. -/
theorem C5_member_node_at_most_once (db : DB) (space : String)
    (out : TreeForest × List (String × MemberDoc))
    (h : get_tree db space = .ok out) :
    (forestMemberIds out.1).Nodup := by
  simp only [get_tree] at h
  split at h
  · rename_i ns p hroots
    injection h with h1
    obtain ⟨h2, h3⟩ := Prod.ext_iff.1 h1
    have hres := rootsLoop_out _ _ _ _ _ _ _ hroots
    rw [← h2]
    exact hres.1
  · cases h

/-! ## Claim theorems -/

/-- **C1** (code-bug evaluation).  The claim — backed by spec §4.2(b) — says
linking must fail with `Conflict` when the target spouse already has a
different `spouse_id`.  The code has no such check in `set_spouse`: with `B`
married to `C`, `POST /tree/members/A/spouse {spouse_id: B}` succeeds and
silently overwrites `B.spouse_id` from `C` to `A`. -/
theorem C1_set_spouse_overwrites_taken_spouse :
    (set_spouse exSpouseDB "demo" "A" (some "B")).2 = .ok () ∧
    (docGet exSpouseDB.members "B").map MemberDoc.spouse_id = some (some "C") ∧
    (docGet (set_spouse exSpouseDB "demo" "A" (some "B")).1.members "B").map
      MemberDoc.spouse_id = some (some "A") :=
  ⟨rfl, rfl, rfl⟩

/-- **C2** (code-bug evaluation).  Spouse symmetry is violated by a sequence
of two successful `set_spouse` calls from a fresh state: after linking
`B` ↔ `C` and then `A` → `B`, member `C` still points at `B` while `B` points
at `A`. -/
theorem C2_spouse_symmetry_broken_by_successful_calls :
    (set_spouse exVirginDB "demo" "B" (some "C")).2 = .ok () ∧
    spouseSymmetric (set_spouse exVirginDB "demo" "B" (some "C")).1 "demo" = true ∧
    (set_spouse (set_spouse exVirginDB "demo" "B" (some "C")).1 "demo" "A"
      (some "B")).2 = .ok () ∧
    spouseSymmetric (set_spouse (set_spouse exVirginDB "demo" "B" (some "C")).1
      "demo" "A" (some "B")).1 "demo" = false :=
  ⟨rfl, rfl, rfl, rfl⟩

/-- **C4** (code-bug evaluation).  On a purely cyclic relation set assembly
terminates without error, but on a relation set with a dangling explicit-root
relation `None → X` (`X` not a member) the assembly raises the Python
`KeyError` (HTTP 500) instead of skipping it — contradicting the claim that
assembly never raises for any finite set of members and relations. -/
theorem C4_assembly_raises_on_dangling_root :
    get_tree exDanglingDB "demo" = .error (.keyError "X") ∧
    (get_tree exCycleDB "demo").isOk = true :=
  ⟨rfl, rfl⟩

/-- **C9** (code-bug evaluation).  The version manager is global, not
tenant-scoped: a save requested from tenant `s1` snapshots tenant `s2`'s
relation as well, and the subsequent recover deletes `s2`'s relation and
re-inserts every pair without any `space_id`. -/
theorem C9_version_manager_not_tenant_scoped :
    (docGet (save_tree exTwoTenantDB "v1" "t").1.tree_versions "v1").map
      VersionDoc.relations =
      some [{ parent_id := some "P", child_id := some "C" },
            { parent_id := some "Q", child_id := some "D" }] ∧
    exTwoTenantDB.relations.filter
      (fun d => d.2.space_id == some "s2") =
      [("r2", exRel (some "Q") (some "D") (some "s2"))] ∧
    (recover_tree (save_tree exTwoTenantDB "v1" "t").1 "v1").1.relations.filter
      (fun d => d.2.space_id == some "s2") = [] ∧
    (recover_tree (save_tree exTwoTenantDB "v1" "t").1 "v1").1.relations.all
      (fun d => d.2.space_id == none) = true :=
  ⟨by rfl, by rfl, by rfl, by rfl⟩

/-- Re-inserting a snapshot (as `recover_tree` does) and projecting the
pairs back yields the snapshot itself. -/
theorem enumRecoverPairs (rels : List RelPair) :
    ((rels.enum.map (fun p => ("recovered" ++ toString p.1,
        ({ parent_id := p.2.parent_id, child_id := p.2.child_id,
           space_id := none } : RelationDoc)))).map
      (fun d => relPairOf d.2)) = rels := by
  rw [List.map_map]
  have hcomp : (rels.enum.map
      ((fun (d : String × RelationDoc) => relPairOf d.2) ∘
        (fun p => ("recovered" ++ toString p.1,
          ({ parent_id := p.2.parent_id, child_id := p.2.child_id,
             space_id := none } : RelationDoc))))) =
      rels.enum.map Prod.snd := by
    apply List.map_congr_left
    intro p _
    rfl
  rw [hcomp, List.enum_map_snd]

/-- **C6**: saving and then recovering the returned version id restores the
set (indeed the multiset) of `{parent_id, child_id}` pairs that existed at
save time, no matter how the relation collection was edited in between
(`rels'` is the arbitrary relation collection at recover time). -/
theorem C6_save_recover_roundtrip (db : DB) (vid now : String)
    (rels' : List (String × RelationDoc)) :
    (recover_tree { (save_tree db vid now).1 with relations := rels' } vid).2 =
      .ok () ∧
    ((recover_tree { (save_tree db vid now).1 with relations := rels' }
        vid).1.relations.map (fun d => relPairOf d.2)).Perm
      (db.relations.map (fun d => relPairOf d.2)) := by
  have hget : docGet ({ (save_tree db vid now).1 with
      relations := rels' }).tree_versions vid =
      some { created_at := now, relations := _snapshot_relations db,
             version := _next_version_number db } := by
    show docGet (docSet db.tree_versions vid _) vid = _
    exact docGet_docSet_self _ _ _
  constructor
  · unfold recover_tree
    rw [hget]
  · have heq : ((recover_tree { (save_tree db vid now).1 with
        relations := rels' } vid).1.relations.map (fun d => relPairOf d.2)) =
        _snapshot_relations db := by
      unfold recover_tree
      rw [hget]
      exact enumRecoverPairs (_snapshot_relations db)
    rw [heq]
    exact sortBy_perm relPairLe (db.relations.map (fun d => relPairOf d.2))

/-- `save_tree` only writes the version document and the pointer. -/
theorem save_tree_state (db : DB) (vid now : String) :
    ((save_tree db vid now).1).relations = db.relations ∧
    ((save_tree db vid now).1).tree_state_active = some (some vid) ∧
    ((save_tree db vid now).1).tree_versions =
      docSet db.tree_versions vid
        { created_at := now, relations := _snapshot_relations db,
          version := _next_version_number db } :=
  ⟨rfl, rfl, rfl⟩

/-- The pointer-set branch of `unsaved_changes`: with an active version id
pointing at an existing version document, the check compares the stored
snapshot with the current one. -/
theorem unsaved_with_pointer (db : DB) (vid : String) (V : VersionDoc)
    (h : vid ≠ "")
    (hta : db.tree_state_active = some (some vid))
    (hv : docGet db.tree_versions vid = some V) :
    (unsaved_changes db).2 =
      decide (V.relations ≠ _snapshot_relations db) := by
  unfold unsaved_changes
  rw [hta]
  show ((match truthy (some vid) with
    | none => (db, true)
    | some active_version_id =>
      match docGet db.tree_versions active_version_id with
      | none => (db, true)
      | some version_data =>
        (db, version_data.relations ≠ _snapshot_relations db)) :
    DB × Bool).2 = _
  rw [show truthy (some vid) = some vid from by simp [truthy, h]]
  show ((match docGet db.tree_versions vid with
    | none => (db, true)
    | some version_data =>
      (db, version_data.relations ≠ _snapshot_relations db)) :
    DB × Bool).2 = _
  rw [hv]

/-- Directly after a save, `unsaved_changes` reports `false`. -/
theorem unsaved_after_save (db : DB) (vid now : String) (h : vid ≠ "") :
    (unsaved_changes (save_tree db vid now).1).2 = false := by
  rw [unsaved_with_pointer (save_tree db vid now).1 vid
    { created_at := now, relations := _snapshot_relations db,
      version := _next_version_number db }
    h (save_tree_state db vid now).2.1
    (by rw [(save_tree_state db vid now).2.2]; exact docGet_docSet_self _ _ _)]
  have : _snapshot_relations (save_tree db vid now).1 = _snapshot_relations db := rfl
  simp [this]

/-- `move` never touches the version store or the active-version pointer. -/
theorem move_preserves_versions (db : DB) (space cid : String)
    (pid : Option String) (rid : String) :
    ((move db space cid pid rid).1).tree_versions = db.tree_versions ∧
    ((move db space cid pid rid).1).tree_state_active =
      db.tree_state_active := by
  unfold move
  constructor <;> (dsimp only) <;> (repeat' split) <;> rfl

/-- **C7** (amended): immediately after a save the unsaved check returns
`false`; after a subsequent successful move it returns `true` exactly when
the move changed the deterministic snapshot of `{parent_id, child_id}` pairs
(a move that recreates the same pair set leaves it `false`); after a further
save it returns `false` again. -/
theorem C7_dirty_detection (db : DB) (vid now : String) (h : vid ≠ "")
    (space cid : String) (pid : Option String) (rid : String)
    (vid₂ now₂ : String) (h₂ : vid₂ ≠ "") :
    (unsaved_changes (save_tree db vid now).1).2 = false ∧
    ((move (save_tree db vid now).1 space cid pid rid).2 = .ok () →
      ((unsaved_changes (move (save_tree db vid now).1 space cid pid rid).1).2 =
        decide (_snapshot_relations db ≠
          _snapshot_relations (move (save_tree db vid now).1 space cid pid rid).1) ∧
       (unsaved_changes (save_tree
          (move (save_tree db vid now).1 space cid pid rid).1 vid₂ now₂).1).2 =
        false)) := by
  refine ⟨unsaved_after_save db vid now h, fun _ => ⟨?_, ?_⟩⟩
  · have hmv := move_preserves_versions (save_tree db vid now).1 space cid pid rid
    have hta : ((move (save_tree db vid now).1 space cid pid rid).1).tree_state_active =
        some (some vid) := by
      rw [hmv.2]; exact (save_tree_state db vid now).2.1
    have hv : docGet ((move (save_tree db vid now).1 space cid pid
        rid).1).tree_versions vid =
        some { created_at := now, relations := _snapshot_relations db,
               version := _next_version_number db } := by
      rw [hmv.1, (save_tree_state db vid now).2.2]
      exact docGet_docSet_self _ _ _
    exact unsaved_with_pointer _ vid _ h hta hv
  · exact unsaved_after_save _ vid₂ now₂ h₂

/-- Witness for C7: a concrete run in which the in-between move does change
the snapshot, so the check reports dirty and then clean again. -/
theorem C7_dirty_detection_witness :
    (unsaved_changes (save_tree exMoveDB "v1" "t").1).2 = false ∧
    ((move (save_tree exMoveDB "v1" "t").1 "demo" "C" none "r9").2 = .ok () →
      ((unsaved_changes (move (save_tree exMoveDB "v1" "t").1 "demo" "C" none
          "r9").1).2 =
        decide (_snapshot_relations exMoveDB ≠
          _snapshot_relations (move (save_tree exMoveDB "v1" "t").1 "demo" "C"
            none "r9").1) ∧
       (unsaved_changes (save_tree
          (move (save_tree exMoveDB "v1" "t").1 "demo" "C" none "r9").1 "v2"
          "t2").1).2 = false)) :=
  C7_dirty_detection exMoveDB "v1" "t" (by decide) "demo" "C" none "r9" "v2"
    "t2" (by decide)

/-- **C10**: with the member present in the caller's space, deletion fails
with `BadRequest` and changes nothing when some relation of the space names
the member as parent; otherwise it removes exactly the space's relations
naming the member as child, the name-guard document, and the member document
itself. -/
theorem C10_delete_member_spec (db : DB) (space mid : String) (m : MemberDoc)
    (hm : docGet db.members mid = some m) (hs : m.space_id = space) :
    (db.relations.filter (fun d =>
        d.2.parent_id == some mid && d.2.space_id == some space) ≠ [] →
      (delete_member db space mid).2 =
        .error (.http 400 "Cannot delete: member has children") ∧
      (delete_member db space mid).1 = db) ∧
    (db.relations.filter (fun d =>
        d.2.parent_id == some mid && d.2.space_id == some space) = [] →
      (delete_member db space mid).2 = .ok () ∧
      (delete_member db space mid).1 =
        { db with
            relations := db.relations.filter (fun d =>
              ¬(d.2.child_id == some mid && d.2.space_id == some space)),
            member_keys :=
              if m.name_key ≠ "" then
                docDelete db.member_keys (space ++ ":" ++ m.name_key)
              else db.member_keys,
            members := docDelete db.members mid }) := by
  simp only [delete_member, hm]
  rw [if_neg (show ¬ (m.space_id ≠ space) from by simp [hs])]
  constructor
  · intro hne
    rw [if_pos hne]
    exact ⟨rfl, rfl⟩
  · intro heq
    rw [if_neg (show ¬ (db.relations.filter (fun d =>
        d.2.parent_id == some mid && d.2.space_id == some space) ≠ []) from
        by simp [heq])]
    refine ⟨rfl, ?_⟩
    by_cases hmk : m.name_key ≠ ""
    · simp only [if_pos hmk]
    · simp only [if_neg hmk]

/-- Witness for C10: deleting leaf member `C` of `exMoveDB` (no children)
removes the relation `P → C` and the member document. -/
theorem C10_delete_member_spec_witness :
    (exMoveDB.relations.filter (fun d =>
        d.2.parent_id == some "C" && d.2.space_id == some "demo") = []) ∧
    ((delete_member exMoveDB "demo" "C").2 = .ok () ∧
      (delete_member exMoveDB "demo" "C").1 =
        { exMoveDB with
            relations := exMoveDB.relations.filter (fun d =>
              ¬(d.2.child_id == some "C" && d.2.space_id == some "demo")),
            member_keys :=
              if (exMem "demo").name_key ≠ "" then
                docDelete exMoveDB.member_keys ("demo" ++ ":" ++ (exMem "demo").name_key)
              else exMoveDB.member_keys,
            members := docDelete exMoveDB.members "C" }) :=
  ⟨by decide,
    (C10_delete_member_spec exMoveDB "demo" "C" (exMem "demo") (by decide)
      (by decide)).2 (by decide)⟩

/-- The member document written by a successful `create_member` without a
spouse request. -/
def createdMemberDoc (t f l : String) : MemberDoc :=
  { first_name := f, last_name := l, name_key := name_key f l,
    spouse_id := none, space_id := t }

/-- A successful spouse-less `create_member` run, fully evaluated: the guard
is created then overwritten, and the member document is appended. -/
theorem create_member_run (db : DB) (t f l id₁ : String)
    (hg : docGet db.member_keys (t ++ ":" ++ name_key f l) = none) :
    create_member db t { first_name := f, last_name := l, spouse_id := none }
      id₁ =
    ({ db with
        member_keys := docSet
          (db.member_keys ++ [(t ++ ":" ++ name_key f l,
            { member_id := none, name_key := some (name_key f l),
              space_id := t })])
          (t ++ ":" ++ name_key f l)
          { member_id := some id₁, name_key := none, space_id := t },
        members := docSet db.members id₁ (createdMemberDoc t f l) },
      .ok (id₁, createdMemberDoc t f l)) := by
  simp only [create_member]
  rw [docCreate_of_get_none _ _ _ hg]
  rfl

/-- **C3**: in a state with no member and no guard for the normalized key in
tenant `t` (and none in `t'` either), the first create succeeds and leaves
exactly one member with that key in `t`; an identically named second create
in `t` returns `Conflict` and changes nothing, still leaving exactly one such
member; an identically named create in the different tenant `t'` succeeds. -/
theorem C3_name_key_unique_per_tenant (db : DB) (t t' f l id₁ id₂ id₃ : String)
    (hg : docGet db.member_keys (t ++ ":" ++ name_key f l) = none)
    (hg' : docGet db.member_keys (t' ++ ":" ++ name_key f l) = none)
    (hne : t' ++ ":" ++ name_key f l ≠ t ++ ":" ++ name_key f l)
    (hcount : countKey db t (name_key f l) = 0)
    (hid : docGet db.members id₁ = none) :
    (create_member db t { first_name := f, last_name := l, spouse_id := none }
        id₁).2 = .ok (id₁, createdMemberDoc t f l) ∧
    countKey (create_member db t
        { first_name := f, last_name := l, spouse_id := none } id₁).1 t
      (name_key f l) = 1 ∧
    (create_member (create_member db t
        { first_name := f, last_name := l, spouse_id := none } id₁).1 t
        { first_name := f, last_name := l, spouse_id := none } id₂).2 =
      .error (.http 409
        "Member with same first_name and last_name already exists in this family space") ∧
    (create_member (create_member db t
        { first_name := f, last_name := l, spouse_id := none } id₁).1 t
        { first_name := f, last_name := l, spouse_id := none } id₂).1 =
      (create_member db t
        { first_name := f, last_name := l, spouse_id := none } id₁).1 ∧
    (create_member (create_member db t
        { first_name := f, last_name := l, spouse_id := none } id₁).1 t'
        { first_name := f, last_name := l, spouse_id := none } id₃).2 =
      .ok (id₃, createdMemberDoc t' f l) := by
  have hrun := create_member_run db t f l id₁ hg
  have hkeys : docGet (create_member db t
      { first_name := f, last_name := l, spouse_id := none } id₁).1.member_keys
      (t ++ ":" ++ name_key f l) =
      some { member_id := some id₁, name_key := none, space_id := t } := by
    rw [hrun]
    exact docGet_docSet_self _ _ _
  have hkeys' : docGet (create_member db t
      { first_name := f, last_name := l, spouse_id := none } id₁).1.member_keys
      (t' ++ ":" ++ name_key f l) = none := by
    rw [hrun]
    show docGet (docSet _ _ _) _ = none
    rw [docGet_docSet_ne _ _ _ _ hne]
    rw [docGet_append_single_ne _ _ _ _ hne]
    exact hg'
  refine ⟨by rw [hrun], ?_, ?_, ?_, ?_⟩
  · rw [hrun]
    show countKey { db with
        member_keys := _, members := docSet db.members id₁ _ } t _ = 1
    unfold countKey at hcount ⊢
    rw [docSet_of_get_none _ _ _ hid, List.filter_append]
    simp only [List.length_append, hcount]
    simp [createdMemberDoc, List.filter]
  · rw [hrun] at hkeys ⊢
    simp only [create_member]
    rw [docCreate_of_get_some _ _ _ _ hkeys]
    rfl
  · rw [hrun] at hkeys ⊢
    simp only [create_member]
    rw [docCreate_of_get_some _ _ _ _ hkeys]
    rfl
  · have h3 := create_member_run (create_member db t
      { first_name := f, last_name := l, spouse_id := none } id₁).1 t' f l id₃
      hkeys'
    rw [h3]

/-- Witness for C3: concrete creates of "Alice Smith" in tenants `t1`/`t2`
from the empty store. -/
theorem C3_name_key_unique_per_tenant_witness :
    (create_member exEmptyDB "t1"
      { first_name := "Alice", last_name := "Smith", spouse_id := none }
      "m1").2 = .ok ("m1", createdMemberDoc "t1" "Alice" "Smith") ∧
    countKey (create_member exEmptyDB "t1"
      { first_name := "Alice", last_name := "Smith", spouse_id := none }
      "m1").1 "t1" (name_key "Alice" "Smith") = 1 ∧
    (create_member (create_member exEmptyDB "t1"
        { first_name := "Alice", last_name := "Smith", spouse_id := none }
        "m1").1 "t1"
        { first_name := "Alice", last_name := "Smith", spouse_id := none }
        "m2").2 =
      .error (.http 409
        "Member with same first_name and last_name already exists in this family space") ∧
    (create_member (create_member exEmptyDB "t1"
        { first_name := "Alice", last_name := "Smith", spouse_id := none }
        "m1").1 "t1"
        { first_name := "Alice", last_name := "Smith", spouse_id := none }
        "m2").1 =
      (create_member exEmptyDB "t1"
        { first_name := "Alice", last_name := "Smith", spouse_id := none }
        "m1").1 ∧
    (create_member (create_member exEmptyDB "t1"
        { first_name := "Alice", last_name := "Smith", spouse_id := none }
        "m1").1 "t2"
        { first_name := "Alice", last_name := "Smith", spouse_id := none }
        "m3").2 = .ok ("m3", createdMemberDoc "t2" "Alice" "Smith") :=
  C3_name_key_unique_per_tenant exEmptyDB "t1" "t2" "Alice" "Smith" "m1" "m2"
    "m3" (by decide) (by decide) (by decide) (by decide) (by decide)

/-- **C5** (counterexample).  The claim "every member appears exactly once —
never zero times and never twice" fails both ways: on the cycle `A→B→A` the
members appear zero times (the forest is empty), and in `exGrandDB` member
`P` appears twice (as a root's member and again as an attached spouse of the
grandchild `C`). -/
theorem C5_counterexample_zero_and_twice :
    (get_tree exCycleDB "demo").toOption.map
      (fun out => (forestAppearIds out.1).count "A") = some 0 ∧
    (get_tree exGrandDB "demo").toOption.map
      (fun out => (forestAppearIds out.1).count "P") = some 2 :=
  ⟨by rfl, by rfl⟩

/-- Witness for C5: on a concrete three-member space the assembly succeeds
and the rendered member ids are distinct. -/
theorem C5_member_node_at_most_once_witness :
    get_tree exVirginDB "demo" =
      .ok (.cons (.node ("A", exMem "demo") .nil none)
        (.cons (.node ("B", exMem "demo") .nil none)
          (.cons (.node ("C", exMem "demo") .nil none) .nil)),
        exVirginDB.members) ∧
    (forestMemberIds (.cons (.node ("A", exMem "demo") .nil none)
        (.cons (.node ("B", exMem "demo") .nil none)
          (.cons (.node ("C", exMem "demo") .nil none) .nil)))).Nodup :=
  ⟨by rfl, C5_member_node_at_most_once exVirginDB "demo" _ (by rfl)⟩

/-- **C7** (counterexample).  A relation-mutating call that recreates the same
`{parent_id, child_id}` pair leaves `unsaved = false`: after a save, moving
`C` under its existing parent `P` succeeds (deleting and re-adding the
relation document) yet the unsaved-changes check still reports `false`,
contradicting "after any relation-mutating call it returns unsaved=true". -/
theorem C7_counterexample_noop_move_not_dirty :
    (move (save_tree exMoveDB "v1" "t").1 "demo" "C" (some "P") "r2").2 =
      .ok () ∧
    (unsaved_changes
      (move (save_tree exMoveDB "v1" "t").1 "demo" "C" (some "P") "r2").1).2 =
      false :=
  ⟨rfl, rfl⟩

end FamilyTree
